import Mathlib

/-!
# CS-BLAST context-library pseudocounts: a shallow embedding

Embedding of `library_pseudocounts-inl.h` (the pseudocount aggregator),
`crf_state.h` (`CrfState`), `crf.h` (`Crf`, `LibraryBasedCrfInit`),
`alphabet.h` (`Alphabet`), `hmm-inl.h` (`Hmm::AddState`), `initializer-inl.h`
(the state initializers) and `blast_hits.cc` (`BlastHits::Filter`).

Conventions of the embedding.

* A `double*` / `ProfileColumn<Abc>` is a buffer `Row α = Nat → α`; a write
  `r[a] = v` is `Function.update r a v`.
* `double` is a linearly ordered field `α` (exact arithmetic); the definitions
  run on `ℚ`, the theorems hold on `ℝ` as well. The E-values of BLAST hits,
  which are parsed from text and only compared, are `Double α`: a value of `α`
  or NaN.
* The `int` arithmetic of `Alphabet` wraps around at 32 bits (`wrapInt`).
* A counted `for` loop is `forLoop lo hi body`, a left fold of the body over
  the indices `lo, lo+1, ..., hi-1`.
* The template parameter `Abc` is a record carrying `kSize`.
* Positions are `int` in the source (`static_cast<int>(seq.length())`); lengths
  are taken within the range of `int`, where the cast is the identity, and are
  natural numbers here. Counts of states, columns and weights are natural
  numbers as well.
* A call that can stop at an assertion or throw returns how it ended together
  with the state it leaves; iterator loops with `break` or a guard in the loop
  condition are structural recursions over the list walked.
-/

namespace cs

/-- Buffer of doubles addressed by a symbol (or state) index. -/
abbrev Row (α : Type) := Nat → α

/-- The indices visited by `for (i = lo; i < hi; ++i)`, in order. -/
def forLoopIndices (lo hi : Nat) : List Nat := List.range' lo (hi - lo)

/-- Runs a loop body over a list of indices, threading the state. -/
def runBody {σ : Type} (body : Nat → σ → σ) (order : List Nat) (s : σ) : σ :=
  order.foldl (fun st i => body i st) s

/-- The loop `for (i = lo; i < hi; ++i) body(i)`. -/
def forLoop {σ : Type} (lo hi : Nat) (body : Nat → σ → σ) (s : σ) : σ :=
  runBody body (forLoopIndices lo hi) s

/-- Template parameter `Abc`: `kSize` real symbols; `kAny` is the index right
after them (`Alphabet::any()` returns `size_`). -/
structure Abc where
  kSize : Nat

/-- Index of the wildcard symbol ANY. -/
def Abc.kAny (abc : Abc) : Nat := abc.kSize

/-- `Profile<Abc>`: `length()` columns, `p[i]` a row of doubles. -/
structure Profile (α : Type) where
  length : Nat
  data : Nat → Row α

/-- The assignment `p[i] = row` of a whole row (writes through `double* pc = p[i]`). -/
def Profile.setRow {α : Type} (p : Profile α) (i : Nat) (r : Row α) : Profile α :=
  { p with data := Function.update p.data i r }

/-- `Sequence<Abc>`: `length()` symbols. -/
structure Sequence where
  length : Nat
  seq : Nat → Nat

/-- `CountProfile<Abc>`: the member `counts`; `length()` is `counts.length()`. -/
structure CountProfile (α : Type) where
  counts : Profile α

/-- `CountProfile::length()`. -/
def CountProfile.length {α : Type} (cp : CountProfile α) : Nat := cp.counts.length

/-- `POHmm<Abc>`: `size()` vertices (numbered from 1) and the graph `g`. -/
structure POHmm (G : Type) where
  size : Nat
  g : G

/-- `ContextProfile<Abc>`: the members read by the code under study. -/
structure ContextProfile (α : Type) where
  prior : α
  probs : Profile α
  pc : Row α
  is_log : Bool

/-- `ContextProfile::length()`. -/
def ContextProfile.length {α : Type} (cp : ContextProfile α) : Nat := cp.probs.length

/-- `ContextLibrary<Abc>`: `size()` profiles of `wlen()` columns, `lib[k]`. -/
structure ContextLibrary (α : Type) where
  size : Nat
  wlen : Nat
  get : Nat → ContextProfile α

/-- `Emission<Abc>`, built by the constructor from `lib.wlen()` and the two
column-weight parameters; only handed on to `CalculatePosteriorProbs`. -/
structure Emission (α : Type) where
  wlen : Nat
  weight_center : α
  weight_decay : α

/-- The members `lib_` and `emission_` of `LibraryPseudocounts<Abc>`. -/
structure LibraryPseudocounts (α : Type) where
  lib_ : ContextLibrary α
  emission_ : Emission α

/-- Constructor `LibraryPseudocounts(lib, weight_center, weight_decay)`. -/
def LibraryPseudocounts.new {α : Type} (lib : ContextLibrary α)
    (weight_center weight_decay : α) : LibraryPseudocounts α :=
  { lib_ := lib, emission_ := { wlen := lib.wlen, weight_center := weight_center,
                                weight_decay := weight_decay } }

/-- Functions the aggregator calls that live outside the files under study,
taken as parameters: the three overloads of `CalculatePosteriorProbs`
(library, emission, input, position, buffer `ppi` ↦ buffer after the call) and
`Normalize(double*, size_t)`. -/
structure Collaborators (α G : Type) where
  ppSeq : ContextLibrary α → Emission α → Sequence → Nat → Row α → Row α
  ppProfile : ContextLibrary α → Emission α → CountProfile α → Nat → Row α → Row α
  ppGraph : ContextLibrary α → Emission α → G → Nat → Row α → Row α
  Normalize : Row α → Nat → Row α

/-- Modelled from the spec: the macro `assert_eq` is defined outside the files
under study; a failed assertion is a precondition violation reported to the
caller (section 4.3) before anything is computed. A call ends normally or at a
failed `assert_eq`. -/
inductive Outcome where
  | ok
  | assertion_failed
  deriving DecidableEq, Repr

/-- Loop state of the aggregator: the matrix `pp` of posteriors and the output
profile `p`. -/
structure AggState (α : Type) where
  pp : Nat → Row α
  p : Profile α

/-- `Matrix<double> pp(rows, cols, 0.0)`. -/
def zeroMatrix {α : Type} [Zero α] : Nat → Row α := fun _ _ => 0

/-- Body of the position loop of `AddToSequence`, iteration `i`. -/
def AddToSequence_iter {α G : Type} [Zero α] [Add α] [Mul α] (ext : Collaborators α G)
    (self : LibraryPseudocounts α) (abc : Abc) (seq : Sequence) (i : Nat)
    (st : AggState α) : AggState α :=
  let ppi := ext.ppSeq self.lib_ self.emission_ seq i (st.pp i)
  let pc := st.p.data i
  let pc := forLoop 0 abc.kSize (fun a pc => Function.update pc a 0) pc
  let pc := forLoop 0 self.lib_.size (fun k pc =>
    forLoop 0 abc.kSize (fun a pc =>
      Function.update pc a (pc a + ppi k * (self.lib_.get k).pc a)) pc) pc
  let pc := ext.Normalize pc abc.kSize
  { pp := Function.update st.pp i ppi, p := st.p.setRow i pc }

/-- `LibraryPseudocounts::AddToSequence(seq, p)`. -/
def AddToSequence {α G : Type} [Zero α] [Add α] [Mul α] (ext : Collaborators α G)
    (self : LibraryPseudocounts α) (abc : Abc) (seq : Sequence) (p : Profile α) :
    Outcome × Profile α :=
  if seq.length ≠ p.length then (Outcome.assertion_failed, p)
  else
    let len := seq.length
    (Outcome.ok,
      (forLoop 0 len (AddToSequence_iter ext self abc seq) { pp := zeroMatrix, p := p }).p)

/-- Body of the position loop of `AddToProfile`, iteration `i`. -/
def AddToProfile_iter {α G : Type} [Zero α] [Add α] [Mul α] (ext : Collaborators α G)
    (self : LibraryPseudocounts α) (abc : Abc) (cp : CountProfile α) (i : Nat)
    (st : AggState α) : AggState α :=
  let ppi := ext.ppProfile self.lib_ self.emission_ cp i (st.pp i)
  let pc := st.p.data i
  let pc := forLoop 0 abc.kSize (fun a pc => Function.update pc a 0) pc
  let pc := forLoop 0 self.lib_.size (fun k pc =>
    forLoop 0 abc.kSize (fun a pc =>
      Function.update pc a (pc a + ppi k * (self.lib_.get k).pc a)) pc) pc
  let pc := ext.Normalize pc abc.kSize
  { pp := Function.update st.pp i ppi, p := st.p.setRow i pc }

/-- `LibraryPseudocounts::AddToProfile(cp, p)`. -/
def AddToProfile {α G : Type} [Zero α] [Add α] [Mul α] (ext : Collaborators α G)
    (self : LibraryPseudocounts α) (abc : Abc) (cp : CountProfile α) (p : Profile α) :
    Outcome × Profile α :=
  if cp.counts.length ≠ p.length then (Outcome.assertion_failed, p)
  else
    let len := cp.length
    (Outcome.ok,
      (forLoop 0 len (AddToProfile_iter ext self abc cp) { pp := zeroMatrix, p := p }).p)

/-- Body of the vertex loop of `AddToPOHmm`, iteration `i` (vertices count
from 1; the buffers are rows `i - 1`). -/
def AddToPOHmm_iter {α G : Type} [Zero α] [Add α] [Mul α] (ext : Collaborators α G)
    (self : LibraryPseudocounts α) (abc : Abc) (hmm : POHmm G) (i : Nat)
    (st : AggState α) : AggState α :=
  let ppi := ext.ppGraph self.lib_ self.emission_ hmm.g i (st.pp (i - 1))
  let pc := st.p.data (i - 1)
  let pc := forLoop 0 abc.kSize (fun a pc => Function.update pc a 0) pc
  let pc := forLoop 0 self.lib_.size (fun k pc =>
    forLoop 0 abc.kSize (fun a pc =>
      Function.update pc a (pc a + ppi k * (self.lib_.get k).pc a)) pc) pc
  let pc := ext.Normalize pc abc.kSize
  { pp := Function.update st.pp (i - 1) ppi, p := st.p.setRow (i - 1) pc }

/-- `LibraryPseudocounts::AddToPOHmm(hmm, p)`: no assertion; the loop runs
`for (i = 1; i <= len; ++i)`. -/
def AddToPOHmm {α G : Type} [Zero α] [Add α] [Mul α] (ext : Collaborators α G)
    (self : LibraryPseudocounts α) (abc : Abc) (hmm : POHmm G) (p : Profile α) :
    Outcome × Profile α :=
  let len := hmm.size
  (Outcome.ok,
    (forLoop 1 (len + 1) (AddToPOHmm_iter ext self abc hmm) { pp := zeroMatrix, p := p }).p)

/-- The row handed to `Normalize` at one position, as the specification words
it: `row[a] = Σ_k posterior[k] * pcDistribution_k[a]` for the `K` symbols, the
other cells of the buffer as they were. -/
def mixtureRow {α : Type} [Semiring α] (K : Nat) (lib : ContextLibrary α)
    (posterior : Row α) (old : Row α) : Row α :=
  fun a => if a < K then ∑ k in Finset.range lib.size, posterior k * (lib.get k).pc a else old a

/-- One position of the aggregation, spec side: buffer row `r` of `pp` becomes
`post` of itself and output row `r` becomes `mk` of the new posterior and the
old row. -/
def rowStep {α : Type} (r : Nat) (post : Row α → Row α) (mk : Row α → Row α → Row α)
    (st : AggState α) : AggState α :=
  { pp := Function.update st.pp r (post (st.pp r)),
    p := st.p.setRow r (mk (post (st.pp r)) (st.p.data r)) }

/-- The output profile of the aggregator, spec side: row `i < L` is the
normalised mixture for the posterior of position `i`; other rows are kept. -/
def aggregated {α : Type} [Semiring α] (normalize : Row α → Nat → Row α) (K : Nat)
    (lib : ContextLibrary α) (posterior : Nat → Row α) (L : Nat) (p : Profile α) : Profile α :=
  { length := p.length,
    data := fun i => if i < L then normalize (mixtureRow K lib (posterior i) (p.data i)) K
                     else p.data i }

/-- Modelled from the spec: `Normalize(double* array, size_t length)` is called by
the aggregator but defined outside the files under study. Section 4.3, step 4:
"Renormalize outputRow to sum exactly to 1": the first `length` cells are
summed and each is divided by the sum. The specification is silent on a row
whose sum is zero; such a row is returned unchanged. -/
def Normalize {α : Type} [Field α] [DecidableEq α] (array : Row α) (length : Nat) : Row α :=
  let sum := forLoop 0 length (fun i sum => sum + array i) 0
  if sum = 0 then array
  else forLoop 0 length (fun i arr => Function.update arr i (arr i / sum)) array

/-- A row is a probability distribution over its first `n` cells: every cell is
non-negative and the cells sum to one. -/
def IsDistribution {α : Type} [OrderedSemiring α] (n : Nat) (v : Row α) : Prop :=
  (∀ a, a < n → 0 ≤ v a) ∧ ∑ a in Finset.range n, v a = 1

/-- Modelled from the spec: `CalculatePosteriorProbs` is called by the aggregator
but defined outside the files under study. Section 4.2: given the scores
`score[k]` of the `size` library states for one window (step 1, the window
scorer, is the parameter `score`), subtract `max(score)` from every entry and
exponentiate to the unnormalised weights `exp(score[k] - max)` (step 2), then
divide by their sum (step 3); a sum that is exactly zero falls back to the
uniform distribution. The exponential is a parameter. -/
def CalculatePosteriorProbs {α : Type} [LinearOrderedField α] (exp : α → α)
    (score : Nat → α) (size : Nat) (ppi : Row α) : Row α :=
  let max := forLoop 1 size (fun k m => if score k > m then score k else m) (score 0)
  let ppi := forLoop 0 size (fun k ppi => Function.update ppi k (exp (score k - max))) ppi
  let sum := forLoop 0 size (fun k sum => sum + ppi k) 0
  if sum = 0 then forLoop 0 size (fun k ppi => Function.update ppi k (1 / (size : α))) ppi
  else forLoop 0 size (fun k ppi => Function.update ppi k (ppi k / sum)) ppi

/-! ### A concrete scenario (section 8 of the specification)

Alphabet of four symbols, two library states of window length three with
emission distributions `[0.7, 0.1, 0.1, 0.1]` and `[0.1, 0.1, 0.1, 0.7]`. -/

/-- Alphabet with `K = 4`. -/
def abc4 : Abc := { kSize := 4 }

/-- A uniform three-column profile over four symbols. -/
def uniformProfile3 : Profile ℚ := { length := 3, data := fun _ a => if a < 4 then 1 / 4 else 0 }

/-- State A of the scenario. -/
def stateA : ContextProfile ℚ :=
  { prior := 1 / 2, probs := uniformProfile3, is_log := false,
    pc := fun a => if a = 0 then 7 / 10 else if a < 4 then 1 / 10 else 0 }

/-- State B of the scenario. -/
def stateB : ContextProfile ℚ :=
  { prior := 1 / 2, probs := uniformProfile3, is_log := false,
    pc := fun a => if a = 3 then 7 / 10 else if a < 3 then 1 / 10 else 0 }

/-- The two-state library of the scenario. -/
def lib2 : ContextLibrary ℚ :=
  { size := 2, wlen := 3, get := fun k => if k = 0 then stateA else stateB }

/-- The aggregator over `lib2`. -/
def pseudocounts2 : LibraryPseudocounts ℚ := LibraryPseudocounts.new lib2 (8 / 5) (17 / 20)

/-- Collaborators for the scenario: every overload of `CalculatePosteriorProbs`
writes the posterior `(9/10, 1/10)`; `Normalize` is the modelled one. -/
def collaborators2 : Collaborators ℚ Unit :=
  { ppSeq := fun _ _ _ _ ppi => Function.update (Function.update ppi 0 (9 / 10)) 1 (1 / 10),
    ppProfile := fun _ _ _ _ ppi => Function.update (Function.update ppi 0 (9 / 10)) 1 (1 / 10),
    ppGraph := fun _ _ _ _ ppi => Function.update (Function.update ppi 0 (9 / 10)) 1 (1 / 10),
    Normalize := Normalize }

/-- The input sequence `[0, 0, 0]`. -/
def seq000 : Sequence := { length := 3, seq := fun _ => 0 }

/-- A count profile of three columns. -/
def cp3 : CountProfile ℚ := { counts := uniformProfile3 }

/-- A partial-order HMM of three vertices. -/
def pohmm3 : POHmm Unit := { size := 3, g := () }

/-- An output profile of three rows, all cells zero. -/
def out3 : Profile ℚ := { length := 3, data := fun _ _ => 0 }

/-- The degenerate library of size one holding state A only. -/
def lib1 : ContextLibrary ℚ := { size := 1, wlen := 3, get := fun _ => stateA }

/-- The aggregator over `lib1`. -/
def pseudocounts1 : LibraryPseudocounts ℚ := LibraryPseudocounts.new lib1 (8 / 5) (17 / 20)

/-- Collaborators for the degenerate library: the posterior of the sole state
is one. -/
def collaborators1 : Collaborators ℚ Unit :=
  { ppSeq := fun _ _ _ _ ppi => Function.update ppi 0 1,
    ppProfile := fun _ _ _ _ ppi => Function.update ppi 0 1,
    ppGraph := fun _ _ _ _ ppi => Function.update ppi 0 1,
    Normalize := Normalize }

/-- The library with no state. -/
def lib0 : ContextLibrary ℚ := { size := 0, wlen := 3, get := fun _ => stateA }

/-- The aggregator over the empty library. -/
def pseudocounts0 : LibraryPseudocounts ℚ := LibraryPseudocounts.new lib0 (8 / 5) (17 / 20)

/-- Collaborators for the empty library: with no state to score,
`CalculatePosteriorProbs` writes nothing into the buffer. -/
def collaborators0 : Collaborators ℚ Unit :=
  { ppSeq := fun _ _ _ _ ppi => ppi,
    ppProfile := fun _ _ _ _ ppi => ppi,
    ppGraph := fun _ _ _ _ ppi => ppi,
    Normalize := Normalize }

/-- An output profile of four rows, all cells zero. -/
def out4 : Profile ℚ := { length := 4, data := fun _ _ => 0 }

/-- The position loop of `AddToSequence` under `#pragma omp parallel for`, with
the iterations executed in the order given by `order`. -/
def AddToSequence_scheduled {α G : Type} [Zero α] [Add α] [Mul α] (order : List Nat)
    (ext : Collaborators α G) (self : LibraryPseudocounts α) (abc : Abc) (seq : Sequence)
    (p : Profile α) : Outcome × Profile α :=
  if seq.length ≠ p.length then (Outcome.assertion_failed, p)
  else
    (Outcome.ok,
      (runBody (AddToSequence_iter ext self abc seq) order { pp := zeroMatrix, p := p }).p)

/-- The position loop of `AddToProfile` under `#pragma omp parallel for`, with
the iterations executed in the order given by `order`. -/
def AddToProfile_scheduled {α G : Type} [Zero α] [Add α] [Mul α] (order : List Nat)
    (ext : Collaborators α G) (self : LibraryPseudocounts α) (abc : Abc) (cp : CountProfile α)
    (p : Profile α) : Outcome × Profile α :=
  if cp.counts.length ≠ p.length then (Outcome.assertion_failed, p)
  else
    (Outcome.ok,
      (runBody (AddToProfile_iter ext self abc cp) order { pp := zeroMatrix, p := p }).p)

/-- The vertex loop of `AddToPOHmm` under `#pragma omp parallel for`, with the
iterations executed in the order given by `order`. -/
def AddToPOHmm_scheduled {α G : Type} [Zero α] [Add α] [Mul α] (order : List Nat)
    (ext : Collaborators α G) (self : LibraryPseudocounts α) (abc : Abc) (hmm : POHmm G)
    (p : Profile α) : Outcome × Profile α :=
  (Outcome.ok,
    (runBody (AddToPOHmm_iter ext self abc hmm) order { pp := zeroMatrix, p := p }).p)

/-! ### `CrfState` (crf_state.h) -/

/-- Modelled from the spec: the constant `DBL_MIN` of `<float.h>`, the floor of
the clamp before a logarithm ("smallest normal double", section 9), `2^-1022`. -/
def DBL_MIN {α : Type} [Field α] : α := 1 / 2 ^ 1022

/-- Modelled from the spec: the macro `MAX(a, b)` is defined outside the files
under study; it clamps a probability to the floor (section 3, `pcLogWeights`):
the larger of its two arguments. -/
def MAX {α : Type} [LinearOrder α] (a b : α) : α := if a > b then a else b

/-- The data members of `CrfState<Abc>`. -/
structure CrfState (α : Type) where
  name : String
  bias_weight : α
  context_weights : Profile α
  pc_weights : Row α
  pc : Row α

/-- `CrfState::length()`: the number of columns of the context weights. -/
def CrfState.length {α : Type} (s : CrfState α) : Nat := s.context_weights.length

/-- What `CrfState::Init` uses from outside the files under study, taken as
parameters: `Normalize(prof, 1.0)` on a profile and `Normalize(col, 1.0)` on a
profile column, the map from `pc_weights` to `pc` applied by
`UpdatePseudocounts`, the content of a profile fresh from the constructor
`Profile<Abc>(len)` and the content of the uninitialised array `weights`. -/
structure CrfCollaborators (α : Type) where
  NormalizeProfile : Profile α → α → Profile α
  NormalizeColumn : Row α → α → Row α
  pcOfWeights : Row α → Row α
  freshProfile : Nat → Row α
  stackArray : Row α

/-- Modelled from the spec: `UpdatePseudocounts(state)` is declared in
crf_state.h ("Updates pseudocount emission probs in given CRF state based on
pc_weights") and defined elsewhere: it rewrites the member `pc`, the derived
linear-space emission distribution of section 2, from `pc_weights` and leaves
the other members. -/
def UpdatePseudocounts {α : Type} (env : CrfCollaborators α) (state : CrfState α) :
    CrfState α :=
  { state with pc := env.pcOfWeights state.pc_weights }

/-- `CrfState::Init(prior, prof, col, weight_center, weight_decay)` on the state
`self`; `none` when the assertion `prof.length() & 1` fails. The natural
logarithm `log` is a parameter. -/
def CrfState.Init {α : Type} [LinearOrderedField α] (log : α → α) (env : CrfCollaborators α)
    (abc : Abc) (self : CrfState α) (prior : α) (prof : Profile α) (col : Row α)
    (weight_center weight_decay : α) : Option (CrfState α) :=
  if prof.length &&& 1 = 0 then none
  else
    let self := { self with
      context_weights := { length := prof.length, data := env.freshProfile } }
    let prof := env.NormalizeProfile prof 1
    let col := env.NormalizeColumn col 1
    let self := { self with bias_weight := log (MAX prior DBL_MIN) }
    let c := (self.length - 1) / 2
    let weights := forLoop 1 (c + 1) (fun i weights =>
      let weight := weight_center * weight_decay ^ i
      Function.update (Function.update weights (c - i) weight) (c + i) weight) env.stackArray
    let weights := Function.update weights c weight_center
    let self := { self with
      context_weights := forLoop 0 self.length (fun j cw =>
        let row := forLoop 0 abc.kSize (fun a row =>
          Function.update row a (weights j * log (MAX (prof.data j a) DBL_MIN))) (cw.data j)
        cw.setRow j (Function.update row abc.kAny 0)) self.context_weights }
    let self := { self with
      pc_weights := forLoop 0 abc.kSize (fun a pcw =>
        Function.update pcw a (log (MAX (col a) DBL_MIN))) self.pc_weights }
    let self := { self with pc_weights := Function.update self.pc_weights abc.kAny 0 }
    some (UpdatePseudocounts env self)

/-- Collaborators that leave their argument as it is, with zeroed memory. -/
def plainCrfCollaborators (α : Type) [Zero α] : CrfCollaborators α :=
  { NormalizeProfile := fun prof _ => prof,
    NormalizeColumn := fun col _ => col,
    pcOfWeights := fun w => w,
    freshProfile := fun _ _ => 0,
    stackArray := fun _ => 0 }

/-- A `CrfState` as left by the default constructor. -/
def emptyCrfState (α : Type) [Zero α] : CrfState α :=
  { name := "", bias_weight := 0, context_weights := { length := 0, data := fun _ _ => 0 },
    pc_weights := fun _ => 0, pc := fun _ => 0 }

/-- The array `weights` of `CrfState::Init` after its two fillings, for centre
`c`: the loop over `i = 1..c` and the assignment of the centre. -/
def columnWeights {α : Type} [Monoid α] (stack : Row α) (weight_center weight_decay : α)
    (c : Nat) : Row α :=
  Function.update
    (forLoop 1 (c + 1) (fun i weights =>
      let weight := weight_center * weight_decay ^ i
      Function.update (Function.update weights (c - i) weight) (c + i) weight) stack)
    c weight_center

/-- Distance `|j - c|` between a column `j` and the centre `c`. -/
def columnDistance (j c : Nat) : Nat := if j ≤ c then c - j else j - c

/-! ### `Crf` (crf.h) and the constructors of `CrfState` -/

/-- The exceptions thrown by the code under study, named after their messages:
"Too few profiles in context library for CRF initialization!", "HMM contains
already %i states!", "Profile to add as state has %i columns but should have
%i!", "Could not fully initialize all %i states. Maybe too few training
profiles provided?" and "Could not fully initialize all %i states. Context
library contains too few profiles!". -/
inductive Exception where
  | crf_too_few_profiles
  | hmm_full
  | wrong_num_cols
  | too_few_training_profiles
  | library_too_few_profiles
  deriving DecidableEq, Repr

/-- How a call ends: normally, at a failed `assert`, or with an exception. -/
inductive Exit where
  | normal
  | assertion_failed
  | threw (e : Exception)
  deriving DecidableEq, Repr

/-- `Vector<T>` / `std::vector<T>` addressed by index: `size()` and `v[i]`. -/
structure Vector (β : Type) where
  size : Nat
  get : Nat → β

/-- The assignment `v[i] = x`. -/
def Vector.set {β : Type} (v : Vector β) (i : Nat) (x : β) : Vector β :=
  { v with get := Function.update v.get i x }

/-- Constructor `CrfState(size_t len)`: `bias_weight(0.0)`,
`context_weights(len)`, then `assert(len & 1)`; `none` when the assertion
fails. -/
def CrfState.ofLength {α : Type} [Zero α] (env : CrfCollaborators α) (len : Nat) :
    Option (CrfState α) :=
  let self : CrfState α :=
    { emptyCrfState α with
      bias_weight := 0
      context_weights := { length := len, data := env.freshProfile } }
  if len &&& 1 = 0 then none else some self

/-- Constructor `CrfState(ContextProfile<Abc> p, weight_center, weight_decay)`:
`if (p.is_log) TransformToLin(p)`, then `Init` with the prior, the
probabilities and the central column of `p`. `TransformToLin` is defined
outside the files under study and is a parameter. -/
def CrfState.ofContextProfile {α : Type} [LinearOrderedField α] (log : α → α)
    (env : CrfCollaborators α) (TransformToLin : ContextProfile α → ContextProfile α)
    (abc : Abc) (p : ContextProfile α) (weight_center weight_decay : α) :
    Option (CrfState α) :=
  let p := if p.is_log then TransformToLin p else p
  CrfState.Init log env abc (emptyCrfState α) p.prior p.probs
    (p.probs.data ((p.length - 1) / 2)) weight_center weight_decay

/-- The data members of `Crf<Abc>`. -/
structure Crf (α : Type) where
  wlen_ : Nat
  states_ : Vector (CrfState α)

/-- `Crf::size()`. -/
def Crf.size {α : Type} (crf : Crf α) : Nat := crf.states_.size

/-- `Crf::wlen()`. -/
def Crf.wlen {α : Type} (crf : Crf α) : Nat := crf.wlen_

/-- `Crf::nweights()`: `size() * (1 + (wlen() + 1) * Abc::kSize)`. -/
def Crf.nweights {α : Type} (crf : Crf α) (abc : Abc) : Nat :=
  crf.size * (1 + (crf.wlen + 1) * abc.kSize)

/-- `Crf::center()`: `(wlen_ - 1) / 2`. -/
def Crf.center {α : Type} (crf : Crf α) : Nat := (crf.wlen_ - 1) / 2

/-- `Crf::operator[]`. -/
def Crf.get {α : Type} (crf : Crf α) (i : Nat) : CrfState α := crf.states_.get i

/-- Modelled from the spec: `Crf::SetState(idx, s)` is declared in crf.h
("Initializes profile at index 'idx' with given profile") and defined
elsewhere: state `idx` of the ordered sequence of states (section 3) becomes
`s`. -/
def Crf.SetState {α : Type} (crf : Crf α) (idx : Nat) (s : CrfState α) : Crf α :=
  { crf with states_ := crf.states_.set idx s }

/-- Constructor `Crf(const ContextLibrary<Abc>& lib, weight_center,
weight_decay)`: `wlen_(lib.wlen())`, `states_(lib.size(),
CrfState<Abc>(lib.wlen()))`, then `states_[i] = CrfState<Abc>(lib[i], ...)`
for every `i`; `none` when an assertion of a `CrfState` constructor fails. -/
def Crf.ofLibrary {α : Type} [LinearOrderedField α] (log : α → α) (env : CrfCollaborators α)
    (TransformToLin : ContextProfile α → ContextProfile α) (abc : Abc)
    (lib : ContextLibrary α) (weight_center weight_decay : α) : Option (Crf α) :=
  match CrfState.ofLength env lib.wlen with
  | none => none
  | some s0 =>
    forLoop 0 lib.size (fun i (r : Option (Crf α)) =>
      match r with
      | none => none
      | some crf =>
        match CrfState.ofContextProfile log env TransformToLin abc (lib.get i)
            weight_center weight_decay with
        | none => none
        | some s => some { crf with states_ := crf.states_.set i s })
      (some { wlen_ := lib.wlen, states_ := { size := lib.size, get := fun _ => s0 } })

/-- The data members of `LibraryBasedCrfInit<Abc>` read by `operator()`. -/
structure LibraryBasedCrfInit (α : Type) where
  profiles_ : Vector (ContextProfile α)
  weight_center_ : α
  weight_decay_ : α
  seed_ : Nat

/-- `LibraryBasedCrfInit::operator()(crf)`. The shuffle
`random_shuffle(begin, end, Ran(seed_))` is a parameter (seed and index
vector ↦ shuffled index vector). -/
def LibraryBasedCrfInit.call {α : Type} [LinearOrderedField α] (log : α → α)
    (env : CrfCollaborators α) (TransformToLin : ContextProfile α → ContextProfile α)
    (abc : Abc) (random_shuffle : Nat → List Nat → List Nat)
    (self : LibraryBasedCrfInit α) (crf : Crf α) : Exit × Crf α :=
  if self.profiles_.size < crf.size then (Exit.threw Exception.crf_too_few_profiles, crf)
  else
    let shuffle := forLoop 0 self.profiles_.size (fun i (sh : List Nat) => sh ++ [i]) []
    let shuffle :=
      if self.profiles_.size > crf.size then random_shuffle self.seed_ shuffle else shuffle
    forLoop 0 crf.size (fun k (st : Exit × Crf α) =>
      match st.1 with
      | Exit.normal =>
        match CrfState.ofContextProfile log env TransformToLin abc
            (self.profiles_.get (shuffle.getD k 0)) self.weight_center_ self.weight_decay_ with
        | some s => (Exit.normal, st.2.SetState k s)
        | none => (Exit.assertion_failed, st.2)
      | _ => st) (Exit.normal, crf)

/-- The library `lib2` as a vector of profiles. -/
def profiles2 : Vector (ContextProfile ℚ) := { size := 2, get := lib2.get }

/-- A CRF of three states of three columns, all as left by `CrfState(3)`. -/
def crf3 : Crf ℚ :=
  { wlen_ := 3,
    states_ := { size := 3, get := fun _ =>
      { emptyCrfState ℚ with context_weights := { length := 3, data := fun _ _ => 0 } } } }

/-! ### `Alphabet` (alphabet.h) -/

/-- The largest `int` (32 bits). -/
def INT_MAX : Int := 2147483647

/-- The smallest `int` (32 bits). -/
def INT_MIN : Int := -2147483648

/-- The `int` left by an `int` operation whose mathematical result is `x`:
the result wrapped around into `INT_MIN..INT_MAX` (two's complement), which is
what the compiled code returns when `size_ + 1` or `size_ + 2` overflows. -/
def wrapInt (x : Int) : Int := (x + 2147483648) % 4294967296 - 2147483648

/-- The data member `size_` of class `Alphabet`, an `int`. -/
structure Alphabet where
  size_ : Int

/-- `Alphabet::size()`. -/
def Alphabet.size (abc : Alphabet) : Int := abc.size_

/-- `Alphabet::any()`, the index of the any character. -/
def Alphabet.any (abc : Alphabet) : Int := abc.size_

/-- `Alphabet::gap()`: `size_ + 1` in `int` arithmetic. -/
def Alphabet.gap (abc : Alphabet) : Int := wrapInt (abc.size_ + 1)

/-- `Alphabet::endgap()`: `size_ + 2` in `int` arithmetic. -/
def Alphabet.endgap (abc : Alphabet) : Int := wrapInt (abc.size_ + 2)

/-- `Alphabet::any(int letter)`. -/
def Alphabet.any_p (abc : Alphabet) (letter : Int) : Bool := letter == abc.size_

/-- `Alphabet::less_any(int letter)`. -/
def Alphabet.less_any (abc : Alphabet) (letter : Int) : Bool := decide (letter < abc.size_)

/-- `Alphabet::gap(int letter)`: `letter == size_ + 1` in `int` arithmetic. -/
def Alphabet.gap_p (abc : Alphabet) (letter : Int) : Bool :=
  letter == wrapInt (abc.size_ + 1)

/-- `Alphabet::endgap(int letter)`: `letter == size_ + 2` in `int` arithmetic. -/
def Alphabet.endgap_p (abc : Alphabet) (letter : Int) : Bool :=
  letter == wrapInt (abc.size_ + 2)

/-- An alphabet whose size is the largest `int`. -/
def alphabetMax : Alphabet := { size_ := INT_MAX }

/-- The amino-acid alphabet: twenty letters. -/
def aminoAcids : Alphabet := { size_ := 20 }

/-! ### `BlastHits::Filter` (blast_hits.cc) -/

/-- A `double` as far as its comparisons go: NaN (not a number, which `atof`
may return), or a value of a linearly ordered type. -/
inductive Double (α : Type) where
  | nan
  | num (x : α)
  deriving DecidableEq

/-- The comparison `a > b` of two doubles: false when an operand is NaN. -/
def Double.gt {α : Type} [LinearOrder α] : Double α → Double α → Bool
  | Double.num x, Double.num y => decide (x > y)
  | _, _ => false

/-- The comparison `a <= b` of two doubles: false when an operand is NaN. -/
def Double.le {α : Type} [LinearOrder α] : Double α → Double α → Bool
  | Double.num x, Double.num y => decide (x ≤ y)
  | _, _ => false

/-- `BlastHsp`: the members set by `BlastHits::Read`. -/
structure BlastHsp (α : Type) where
  bit_score : Double α
  evalue : Double α
  query_start : Int
  query_end : Int
  query_seq : List Char
  subject_start : Int
  subject_end : Int
  subject_seq : List Char
  length : Nat
  deriving DecidableEq

/-- `BlastHit`: the members set by `BlastHits::Read`. -/
structure BlastHit (α : Type) where
  oid : Nat
  definition : String
  bit_score : Double α
  evalue : Double α
  hsps : List (BlastHsp α)
  deriving DecidableEq

/-- The data members of `BlastHits`. -/
structure BlastHits (α : Type) where
  query_length_ : Int
  hits_ : List (BlastHit α)

/-- First loop of `Filter`: walk the hits from `begin()`; at the first hit with
`evalue > evalue_threshold` erase it and everything after it, and stop. -/
def BlastHits.eraseHits {α : Type} [LinearOrder α] (evalue_threshold : Double α) :
    List (BlastHit α) → List (BlastHit α)
  | [] => []
  | hit :: rest =>
    if Double.gt hit.evalue evalue_threshold then []
    else hit :: BlastHits.eraseHits evalue_threshold rest

/-- Inner loop of the second loop of `Filter`, on the HSPs of one hit: at the
first HSP with `evalue > evalue_threshold` erase it and everything after it,
and stop. -/
def BlastHits.eraseHsps {α : Type} [LinearOrder α] (evalue_threshold : Double α) :
    List (BlastHsp α) → List (BlastHsp α)
  | [] => []
  | hsp :: rest =>
    if Double.gt hsp.evalue evalue_threshold then []
    else hsp :: BlastHits.eraseHsps evalue_threshold rest

/-- `BlastHits::Filter(evalue_threshold)`. -/
def BlastHits.Filter {α : Type} [LinearOrder α] (self : BlastHits α)
    (evalue_threshold : Double α) : BlastHits α :=
  let hits := BlastHits.eraseHits evalue_threshold self.hits_
  let hits := hits.map (fun hit =>
    { hit with hsps := BlastHits.eraseHsps evalue_threshold hit.hsps })
  { self with hits_ := hits }

/-- An HSP with the given E-value. -/
def hspOf (evalue : ℚ) : BlastHsp ℚ :=
  { bit_score := Double.num 50, evalue := Double.num evalue, query_start := 1,
    query_end := 10, query_seq := [], subject_start := 1, subject_end := 10,
    subject_seq := [], length := 0 }

/-- A hit list of three hits with E-values `1/1000`, `5` and `1/100`. -/
def blastHits3 : BlastHits ℚ :=
  { query_length_ := 100,
    hits_ :=
      [{ oid := 1, definition := "first", bit_score := Double.num 90,
         evalue := Double.num (1 / 1000),
         hsps := [hspOf (1 / 1000), hspOf 2, hspOf (1 / 2)] },
       { oid := 2, definition := "second", bit_score := Double.num 30,
         evalue := Double.num 5, hsps := [hspOf 5] },
       { oid := 3, definition := "third", bit_score := Double.num 80,
         evalue := Double.num (1 / 100), hsps := [hspOf (1 / 100)] }] }

/-- The first hit of `blastHits3` with its first HSP only. -/
def keptHit : BlastHit ℚ :=
  { oid := 1, definition := "first", bit_score := Double.num 90,
    evalue := Double.num (1 / 1000), hsps := [hspOf (1 / 1000)] }

/-- A hit whose E-value is NaN, with one HSP of E-value NaN. -/
def nanHit : BlastHit ℚ :=
  { oid := 1, definition := "nan", bit_score := Double.num 90, evalue := Double.nan,
    hsps := [{ hspOf 0 with evalue := Double.nan }] }

/-- A hit list of two hits with E-values NaN and `1/2`. -/
def blastHitsNaN : BlastHits ℚ :=
  { query_length_ := 100,
    hits_ :=
      [nanHit,
       { oid := 2, definition := "half", bit_score := Double.num 30,
         evalue := Double.num (1 / 2), hsps := [hspOf (1 / 2)] }] }

/-! ### `Hmm` and the state initializers (hmm-inl.h, initializer-inl.h)

These classes are templated on `Alphabet`; their `Profile<Alphabet>` has
`num_cols()` columns. -/

namespace ByAlphabet

/-- `Profile<Alphabet>`: `num_cols()` columns of doubles. -/
structure Profile (α : Type) where
  num_cols : Nat
  data : Nat → Row α

/-- `ContextProfile<Alphabet>`: a `Profile<Alphabet>` with a `prior()`. -/
structure ContextProfile (α : Type) extends Profile α where
  prior : α

/-- `ContextProfileState<Alphabet>`, the `State` of an `Hmm`: built by
`State(index, num_states, profile)`, with the prior set by `set_prior`. -/
structure ContextProfileState (α : Type) where
  index : Nat
  num_states : Nat
  profile : Profile α
  prior : α

/-- The members of `Hmm<Alphabet>` and of its base `ChainGraph`: the numbers of
states and columns given to the constructor (counts, natural numbers here), the
states added so far and the flag `states_logspace_`. -/
structure Hmm (α : Type) where
  num_states_ : Nat
  num_cols_ : Nat
  states_ : List (ContextProfileState α)
  states_logspace_ : Bool

/-- Constructor `Hmm(num_states, num_cols)`: no state yet. -/
def Hmm.new {α : Type} (num_states num_cols : Nat) : Hmm α :=
  { num_states_ := num_states, num_cols_ := num_cols, states_ := [], states_logspace_ := false }

/-- `num_states()`. -/
def Hmm.num_states {α : Type} (h : Hmm α) : Nat := h.num_states_

/-- `num_cols()`. -/
def Hmm.num_cols {α : Type} (h : Hmm α) : Nat := h.num_cols_

/-- Modelled from the spec: `full()` belongs to the base class `ChainGraph`,
outside the files under study; a graph is a fixed-size collection of states
(section 2) and is full when it holds `num_states()` states (compare the
message "HMM contains already %i states!"). -/
def Hmm.full {α : Type} (h : Hmm α) : Bool := h.states_.length == h.num_states_

/-- `Hmm::AddState(profile)`: the exit, the HMM after the call and the value
returned (the index of the new state; 0 when an exception leaves). -/
def Hmm.AddState {α : Type} [Field α] (h : Hmm α) (profile : Profile α) :
    Exit × Hmm α × Nat :=
  if h.full then (Exit.threw Exception.hmm_full, h, 0)
  else if profile.num_cols ≠ h.num_cols then (Exit.threw Exception.wrong_num_cols, h, 0)
  else
    let sp : ContextProfileState α :=
      { index := h.states_.length, num_states := h.num_states, profile := profile,
        prior := 1 / (h.num_states : α) }
    let h := { h with states_ := h.states_ ++ [sp] }
    (Exit.normal, h, h.states_.length - 1)

/-- `Hmm::TransformStatesToLinSpace()`; the transformation of one state is
defined outside the files under study and is a parameter. -/
def Hmm.TransformStatesToLinSpace {α : Type}
    (TransformToLinSpace : ContextProfileState α → ContextProfileState α) (h : Hmm α) : Hmm α :=
  if h.states_logspace_ then
    { h with states_ := h.states_.map TransformToLinSpace, states_logspace_ := false }
  else h

/-- `ProfileLibrary<Alphabet>`: `num_cols()`, `logspace()` and the profiles
between `begin()` and `end()`. -/
structure ProfileLibrary (α : Type) where
  num_cols : Nat
  logspace : Bool
  profiles : List (ContextProfile α)

/-- `PriorCompare(lhs, rhs)`: `lhs->prior() > rhs->prior()`. -/
def PriorCompare {α : Type} [LinearOrder α] (lhs rhs : ContextProfile α) : Bool :=
  decide (lhs.prior > rhs.prior)

/-- The loop `for (it = profiles.begin(); it != profiles.end() && !graph.full();
++it) graph.AddState(**it)`; an exception of `AddState` leaves the loop. -/
def LibraryBasedStateInitializer.addStates {α : Type} [Field α] :
    List (ContextProfile α) → Hmm α → Exit × Hmm α
  | [], graph => (Exit.normal, graph)
  | it :: rest, graph =>
    if graph.full then (Exit.normal, graph)
    else
      match graph.AddState it.toProfile with
      | (Exit.normal, graph, _) => LibraryBasedStateInitializer.addStates rest graph
      | (exit, graph, _) => (exit, graph)

/-- `LibraryBasedStateInitializer::Init(graph)` on the library `lib_`. The
outcome of `std::sort` (which leaves the order of equal elements open) and the
transformation of a state to linear space are parameters. -/
def LibraryBasedStateInitializer.Init {α : Type} [LinearOrderedField α]
    (sort : (ContextProfile α → ContextProfile α → Bool) → List (ContextProfile α) →
      List (ContextProfile α))
    (TransformToLinSpace : ContextProfileState α → ContextProfileState α)
    (lib_ : ProfileLibrary α) (graph : Hmm α) : Exit × Hmm α :=
  if lib_.num_cols ≠ graph.num_cols then (Exit.assertion_failed, graph)
  else
    let profiles := sort PriorCompare lib_.profiles
    match LibraryBasedStateInitializer.addStates profiles graph with
    | (Exit.normal, graph) =>
      let graph := { graph with states_logspace_ := lib_.logspace }
      let graph := graph.TransformStatesToLinSpace TransformToLinSpace
      if !graph.full then (Exit.threw Exception.library_too_few_profiles, graph)
      else (Exit.normal, graph)
    | (exit, graph) => (exit, graph)

/-- The states an empty-so-far graph of `n` states gets from a list of
profiles, the first with index `i`: state `k` is built from profile `k` with
prior `1 / n`. -/
def statesFrom {α : Type} [Field α] (n : Nat) : Nat → List (Profile α) →
    List (ContextProfileState α)
  | _, [] => []
  | i, p :: ps =>
    { index := i, num_states := n, profile := p, prior := 1 / (n : α) }
      :: statesFrom n (i + 1) ps

end ByAlphabet

namespace ByAlphabet

/-- A sorting function standing for `std::sort(first, last, comp)`: insertion
sort, after which no element is `comp`-before an earlier one. -/
def sortByInsertion {β : Type} (comp : β → β → Bool) (l : List β) : List β :=
  l.insertionSort (fun a b => comp b a = false)

/-- A context profile of three columns with the given prior. -/
def contextProfileOf (prior : ℚ) : ContextProfile ℚ :=
  { num_cols := 3, data := fun _ _ => prior, prior := prior }

/-- A profile library of three profiles with priors `1/5`, `1/2` and `3/10`. -/
def library3 : ProfileLibrary ℚ :=
  { num_cols := 3, logspace := false,
    profiles := [contextProfileOf (1 / 5), contextProfileOf (1 / 2), contextProfileOf (3 / 10)] }

end ByAlphabet

namespace ByAlphabet

/-- Modelled from the spec: `iround` is defined outside the files under study;
it rounds a real number to the nearest integer (the sample size is the sampled
fraction of the windows, rounded). -/
def iround {α : Type} [LinearOrderedField α] [FloorRing α] (x : α) : Int := ⌊x + 1 / 2⌋

/-- Modelled from the spec: the constructor `CountProfile(profile, index,
length)` is defined outside the files under study; it copies the context
window (glossary: a fixed-length span of consecutive positions) of `length`
columns of `profile` that starts at column `index`. -/
def CountProfile.window {α : Type} (profile : Profile α) (index length : Nat) : Profile α :=
  { num_cols := length, data := fun j => profile.data (index + j) }

/-- The members of `SamplingStateInitializer` read by `Init`: the profiles (as
shuffled by the constructor), the sample rate, and the pseudocount method
`pc_` (null, or what `AddPseudocountsToProfile` with the constant admixture
`pc_admixture_` does to a profile). -/
structure SamplingStateInitializer (α : Type) where
  profiles_ : List (Profile α)
  sample_rate_ : α
  pc_ : Option (Profile α → Profile α)

/-- Record of one call `graph.AddState(p)` made by `Init`: the position of the
source profile in `profiles_`, the start index of the window, and the value of
`graph.full()` when the call was made. -/
structure Sampled where
  source : Nat
  start : Nat
  full_at_call : Bool
  deriving DecidableEq, Repr

/-- State of a run of `SamplingStateInitializer::Init`: the graph, how the run
stands (normal, or left by an exception), and the record of the calls of
`AddState` made so far. -/
structure SamplingRun (α : Type) where
  graph : Hmm α
  exit : Exit
  log : List Sampled

/-- The statement `if (pc_) pc_->AddPseudocountsToProfile(
ConstantAdmixture(pc_admixture_), &p)`. -/
def SamplingStateInitializer.addPseudocounts {α : Type} (pc_ : Option (Profile α → Profile α))
    (p : Profile α) : Profile α :=
  match pc_ with
  | some add => add p
  | none => p

/-- The loop over the sampled indices of one profile: `for (i = idx.begin();
i != idx.end() && !graph.full(); ++i)` builds the window at `*i`, adds
pseudocounts if `pc_` is set, and calls `graph.AddState(p)`; an exception
leaves the loop. -/
def SamplingStateInitializer.addWindows {α : Type} [Field α]
    (pc_ : Option (Profile α → Profile α)) (source : Nat) (pi : Profile α) :
    List Nat → SamplingRun α → SamplingRun α
  | [], run => run
  | i :: idx, run =>
    if run.graph.full then run
    else
      let p := CountProfile.window pi i run.graph.num_cols
      let p := SamplingStateInitializer.addPseudocounts pc_ p
      let r := run.graph.AddState p
      let run' : SamplingRun α :=
        { graph := r.2.1, exit := r.1,
          log := run.log ++ [{ source := source, start := i, full_at_call := run.graph.full }] }
      match r.1 with
      | Exit.normal => SamplingStateInitializer.addWindows pc_ source pi idx run'
      | _ => run'

/-- The loop over the profiles: `for (pi = profiles_.begin(); pi !=
profiles_.end() && !graph.full(); ++pi)`, where `source` is the position of
`pi` in `profiles_`.

`random_shuffle(idx.begin(), idx.end())` draws from the global random number
generator: it is a parameter taking the state `rng` of the generator and the
index vector to the shuffled vector and the next state, and the state is
threaded through the loop. The sample size `iround(sample_rate_ * idx.size())`
is a product of floats rounded by `iround` (utils.h, outside the files under
study): it is the parameter `sample_size_of`, applied to the rate and the
size. `idx.erase(idx.begin() + sample_size, idx.end())` is defined only for
`0 ≤ sample_size ≤ idx.size()`; outside that range the behaviour is undefined
and the result is `none`. -/
def SamplingStateInitializer.scanProfiles {α ρ : Type} [LinearOrderedField α]
    (random_shuffle : ρ → List Nat → List Nat × ρ) (sample_size_of : α → Nat → Int)
    (sample_rate_ : α) (pc_ : Option (Profile α → Profile α)) :
    Nat → List (Profile α) → ρ → SamplingRun α → Option (SamplingRun α)
  | _, [], _, run => some run
  | source, pi :: rest, rng, run =>
    if run.graph.full then some run
    else if pi.num_cols < run.graph.num_cols then
      SamplingStateInitializer.scanProfiles random_shuffle sample_size_of sample_rate_ pc_
        (source + 1) rest rng run
    else
      let idx := forLoop 0 (pi.num_cols - run.graph.num_cols + 1)
        (fun i (idx : List Nat) => idx ++ [i]) []
      let shuffled := random_shuffle rng idx
      let idx := shuffled.1
      let rng := shuffled.2
      let sample_size := sample_size_of sample_rate_ idx.length
      if sample_size < 0 ∨ (idx.length : Int) < sample_size then none
      else
        let idx := idx.take sample_size.toNat
        let run := SamplingStateInitializer.addWindows pc_ source pi idx run
        match run.exit with
        | Exit.normal =>
          SamplingStateInitializer.scanProfiles random_shuffle sample_size_of sample_rate_ pc_
            (source + 1) rest rng run
        | _ => some run

/-- `SamplingStateInitializer::Init(graph)` with the record of its calls of
`AddState`, started with the random number generator in state `rng`; `none`
when an `erase` is called outside its defined range. -/
def SamplingStateInitializer.Init_traced {α ρ : Type} [LinearOrderedField α]
    (random_shuffle : ρ → List Nat → List Nat × ρ) (sample_size_of : α → Nat → Int)
    (self : SamplingStateInitializer α) (rng : ρ) (graph : Hmm α) :
    Option (SamplingRun α) :=
  match SamplingStateInitializer.scanProfiles random_shuffle sample_size_of
      self.sample_rate_ self.pc_ 0 self.profiles_ rng
      { graph := graph, exit := Exit.normal, log := [] } with
  | none => none
  | some run =>
    match run.exit with
    | Exit.normal =>
      if !run.graph.full then
        some { run with exit := Exit.threw Exception.too_few_training_profiles }
      else some run
    | _ => some run

/-- `SamplingStateInitializer::Init(graph)`: the exit and the graph. -/
def SamplingStateInitializer.Init {α ρ : Type} [LinearOrderedField α]
    (random_shuffle : ρ → List Nat → List Nat × ρ) (sample_size_of : α → Nat → Int)
    (self : SamplingStateInitializer α) (rng : ρ) (graph : Hmm α) :
    Option (Exit × Hmm α) :=
  (SamplingStateInitializer.Init_traced random_shuffle sample_size_of self rng graph).map
    (fun run => (run.exit, run.graph))

/-- The sample size in exact arithmetic: `iround` of the product of the rate
and the size. -/
def exactSampleSize {α : Type} [LinearOrderedField α] [FloorRing α] (sample_rate : α)
    (size : Nat) : Int :=
  iround (sample_rate * (size : α))

/-- A profile of the given number of columns. -/
def profileOfLength (n : Nat) : Profile ℚ := { num_cols := n, data := fun j _ => j }

/-- A sampler over profiles of 5, 2 and 4 columns with sample rate `1/2` and
no pseudocounts. -/
def sampler3 : SamplingStateInitializer ℚ :=
  { profiles_ := [profileOfLength 5, profileOfLength 2, profileOfLength 4],
    sample_rate_ := 1 / 2, pc_ := none }

end ByAlphabet

/-! ## Loops -/

theorem forLoop_empty {σ : Type} (lo : Nat) (body : Nat → σ → σ) (s : σ) :
    forLoop lo lo body s = s := by
  simp [forLoop, forLoopIndices, runBody]

theorem forLoop_succ {σ : Type} (lo hi : Nat) (h : lo ≤ hi) (body : Nat → σ → σ) (s : σ) :
    forLoop lo (hi + 1) body s = body hi (forLoop lo hi body s) := by
  have e : hi + 1 - lo = (hi - lo) + 1 := by omega
  have e2 : lo + (hi - lo) = hi := by omega
  simp [forLoop, forLoopIndices, runBody, e, List.range'_concat, List.foldl_append, e2]

theorem forLoop_shift {σ : Type} (n : Nat) (body : Nat → σ → σ) (s : σ) :
    forLoop 1 (n + 1) body s = forLoop 0 n (fun i => body (i + 1)) s := by
  induction n with
  | zero => simp [forLoop_empty]
  | succ n ih => rw [forLoop_succ 1 (n + 1) (by omega), forLoop_succ 0 n (by omega), ih]

/-- A loop writing cell `a` of a buffer from the old content of that cell. -/
theorem forLoop_cells {α : Type} (g : Nat → α → α) (K : Nat) (r : Row α) :
    forLoop 0 K (fun a pc => Function.update pc a (g a (pc a))) r
      = fun a => if a < K then g a (r a) else r a := by
  induction K with
  | zero => simp [forLoop_empty]
  | succ K ih =>
    rw [forLoop_succ 0 K (by omega), ih]
    funext a
    by_cases h : a = K
    · subst h; simp
    · have : a < K + 1 ↔ a < K := by omega
      simp [Function.update_noteq h, this]

theorem forLoop_clear {α : Type} [Zero α] (K : Nat) (r : Row α) :
    forLoop 0 K (fun a pc => Function.update pc a (0 : α)) r
      = fun a => if a < K then 0 else r a :=
  forLoop_cells (fun _ _ => (0 : α)) K r

theorem forLoop_add {α : Type} [Add α] (c : Nat → α) (K : Nat) (r : Row α) :
    forLoop 0 K (fun a pc => Function.update pc a (pc a + c a)) r
      = fun a => if a < K then r a + c a else r a :=
  forLoop_cells (fun a x => x + c a) K r

/-- The clearing loop followed by the accumulation loops computes the mixture. -/
theorem accumulate_eq_mixtureRow {α : Type} [Semiring α] (K : Nat) (lib : ContextLibrary α)
    (ppi : Row α) (pc : Row α) :
    forLoop 0 lib.size (fun k pc =>
        forLoop 0 K (fun a pc => Function.update pc a (pc a + ppi k * (lib.get k).pc a)) pc)
      (forLoop 0 K (fun a pc => Function.update pc a 0) pc)
      = mixtureRow K lib ppi pc := by
  rw [forLoop_clear]
  have key : ∀ n : Nat, forLoop 0 n (fun k pc =>
        forLoop 0 K (fun a pc => Function.update pc a (pc a + ppi k * (lib.get k).pc a)) pc)
        (fun a => if a < K then 0 else pc a)
      = fun a => if a < K then ∑ k in Finset.range n, ppi k * (lib.get k).pc a else pc a := by
    intro n
    induction n with
    | zero => simp [forLoop_empty]
    | succ n ih =>
      rw [forLoop_succ 0 n (by omega), ih, forLoop_add]
      funext a
      by_cases h : a < K
      · simp [h, Finset.sum_range_succ]
      · simp [h]
  rw [key lib.size]
  rfl

/-! ## The position loop -/

theorem AddToSequence_iter_eq {α G : Type} [Semiring α] (ext : Collaborators α G)
    (self : LibraryPseudocounts α) (abc : Abc) (seq : Sequence) (i : Nat) (st : AggState α) :
    AddToSequence_iter ext self abc seq i st
      = rowStep i (ext.ppSeq self.lib_ self.emission_ seq i)
          (fun ppi old => ext.Normalize (mixtureRow abc.kSize self.lib_ ppi old) abc.kSize) st := by
  simp only [AddToSequence_iter, rowStep, accumulate_eq_mixtureRow]

theorem AddToProfile_iter_eq {α G : Type} [Semiring α] (ext : Collaborators α G)
    (self : LibraryPseudocounts α) (abc : Abc) (cp : CountProfile α) (i : Nat)
    (st : AggState α) :
    AddToProfile_iter ext self abc cp i st
      = rowStep i (ext.ppProfile self.lib_ self.emission_ cp i)
          (fun ppi old => ext.Normalize (mixtureRow abc.kSize self.lib_ ppi old) abc.kSize) st := by
  simp only [AddToProfile_iter, rowStep, accumulate_eq_mixtureRow]

theorem AddToPOHmm_iter_eq {α G : Type} [Semiring α] (ext : Collaborators α G)
    (self : LibraryPseudocounts α) (abc : Abc) (hmm : POHmm G) (i : Nat) (st : AggState α) :
    AddToPOHmm_iter ext self abc hmm i st
      = rowStep (i - 1) (ext.ppGraph self.lib_ self.emission_ hmm.g i)
          (fun ppi old => ext.Normalize (mixtureRow abc.kSize self.lib_ ppi old) abc.kSize) st := by
  simp only [AddToPOHmm_iter, rowStep, accumulate_eq_mixtureRow]

/-- State after `n` iterations of a loop whose iteration `i` is a `rowStep` on
row `i`: rows below `n` are rewritten from their initial content, the others
are untouched. -/
theorem forLoop_rowStep {α : Type} (post : Nat → Row α → Row α)
    (mk : Nat → Row α → Row α → Row α) (body : Nat → AggState α → AggState α)
    (hbody : ∀ i st, body i st = rowStep i (post i) (mk i) st) (n : Nat) (init : AggState α) :
    forLoop 0 n body init
      = { pp := fun j => if j < n then post j (init.pp j) else init.pp j,
          p := { length := init.p.length,
                 data := fun j => if j < n then mk j (post j (init.pp j)) (init.p.data j)
                                  else init.p.data j } } := by
  induction n with
  | zero => simp [forLoop_empty]
  | succ n ih =>
    rw [forLoop_succ 0 n (by omega), ih, hbody]
    simp only [rowStep, Profile.setRow, lt_irrefl, if_false]
    congr 1
    · funext j
      by_cases h : j = n
      · subst h; simp
      · have : j < n + 1 ↔ j < n := by omega
        simp [Function.update_noteq h, this]
    · congr 1
      funext j
      by_cases h : j = n
      · subst h; simp
      · have : j < n + 1 ↔ j < n := by omega
        simp [Function.update_noteq h, this]

theorem AddToSequence_eq {α G : Type} [Semiring α] (ext : Collaborators α G)
    (self : LibraryPseudocounts α) (abc : Abc) (seq : Sequence) (p : Profile α)
    (hlen : seq.length = p.length) :
    AddToSequence ext self abc seq p
      = (Outcome.ok, aggregated ext.Normalize abc.kSize self.lib_
          (fun i => ext.ppSeq self.lib_ self.emission_ seq i (zeroMatrix i)) seq.length p) := by
  simp only [AddToSequence, hlen, ne_eq, not_true_eq_false, if_false]
  rw [forLoop_rowStep _ _ _ (AddToSequence_iter_eq ext self abc seq)]
  simp [aggregated, hlen]

theorem AddToProfile_eq {α G : Type} [Semiring α] (ext : Collaborators α G)
    (self : LibraryPseudocounts α) (abc : Abc) (cp : CountProfile α) (p : Profile α)
    (hlen : cp.counts.length = p.length) :
    AddToProfile ext self abc cp p
      = (Outcome.ok, aggregated ext.Normalize abc.kSize self.lib_
          (fun i => ext.ppProfile self.lib_ self.emission_ cp i (zeroMatrix i))
          cp.counts.length p) := by
  simp only [AddToProfile, hlen, ne_eq, not_true_eq_false, if_false]
  rw [forLoop_rowStep _ _ _ (AddToProfile_iter_eq ext self abc cp)]
  simp [aggregated, hlen, CountProfile.length]

theorem AddToPOHmm_eq {α G : Type} [Semiring α] (ext : Collaborators α G)
    (self : LibraryPseudocounts α) (abc : Abc) (hmm : POHmm G) (p : Profile α) :
    AddToPOHmm ext self abc hmm p
      = (Outcome.ok, aggregated ext.Normalize abc.kSize self.lib_
          (fun i => ext.ppGraph self.lib_ self.emission_ hmm.g (i + 1) (zeroMatrix i))
          hmm.size p) := by
  simp only [AddToPOHmm]
  rw [forLoop_shift, forLoop_rowStep
    (fun i => ext.ppGraph self.lib_ self.emission_ hmm.g (i + 1))
    (fun _ ppi old => ext.Normalize (mixtureRow abc.kSize self.lib_ ppi old) abc.kSize) _
    (fun i st => by rw [AddToPOHmm_iter_eq]; simp)]
  simp [aggregated]

/-! ## Normalisation -/

theorem forLoop_sum {α : Type} [AddCommMonoid α] (v : Row α) (n : Nat) :
    forLoop 0 n (fun i sum => sum + v i) 0 = ∑ i in Finset.range n, v i := by
  induction n with
  | zero => simp [forLoop_empty]
  | succ n ih => rw [forLoop_succ 0 n (by omega), ih, Finset.sum_range_succ]

theorem Normalize_of_sum_one {α : Type} [Field α] [DecidableEq α] (v : Row α) (n : Nat)
    (h : ∑ a in Finset.range n, v a = 1) : Normalize v n = v := by
  unfold Normalize
  simp only [forLoop_sum, h, one_ne_zero, if_false]
  rw [forLoop_cells (fun _ x => x / (1 : α)) n v]
  funext a
  simp

theorem mixtureRow_sum {α : Type} [Semiring α] (K : Nat) (lib : ContextLibrary α)
    (post old : Row α) :
    ∑ a in Finset.range K, mixtureRow K lib post old a
      = ∑ k in Finset.range lib.size, post k * ∑ a in Finset.range K, (lib.get k).pc a := by
  have e : ∀ a ∈ Finset.range K, mixtureRow K lib post old a
      = ∑ k in Finset.range lib.size, post k * (lib.get k).pc a := by
    intro a ha
    simp [mixtureRow, Finset.mem_range.mp ha]
  rw [Finset.sum_congr rfl e, Finset.sum_comm]
  simp [Finset.mul_sum]

/-- A mixture of distributions weighted by a distribution is a distribution,
and `Normalize` leaves it as it is. -/
theorem Normalize_mixtureRow_isDistribution {α : Type} [LinearOrderedField α] [DecidableEq α]
    (K : Nat) (lib : ContextLibrary α) (post old : Row α)
    (hlib : ∀ k, k < lib.size → IsDistribution K (lib.get k).pc)
    (hpost : IsDistribution lib.size post) :
    IsDistribution K (Normalize (mixtureRow K lib post old) K) := by
  have hsum : ∑ a in Finset.range K, mixtureRow K lib post old a = 1 := by
    rw [mixtureRow_sum]
    have e : ∀ k ∈ Finset.range lib.size,
        post k * ∑ a in Finset.range K, (lib.get k).pc a = post k := by
      intro k hk
      rw [(hlib k (Finset.mem_range.mp hk)).2, mul_one]
    rw [Finset.sum_congr rfl e]
    exact hpost.2
  rw [Normalize_of_sum_one _ _ hsum]
  refine ⟨?_, hsum⟩
  intro a ha
  simp only [mixtureRow, ha, if_true]
  apply Finset.sum_nonneg
  intro k hk
  exact mul_nonneg (hpost.1 k (Finset.mem_range.mp hk)) ((hlib k (Finset.mem_range.mp hk)).1 a ha)

/-- With a single state of posterior one, `Normalize` of the mixture is the
emission vector of that state on the `K` symbols. -/
theorem Normalize_mixtureRow_single {α : Type} [Field α] [DecidableEq α]
    (K : Nat) (lib : ContextLibrary α) (post old : Row α) (hsize : lib.size = 1)
    (hpc : ∑ a in Finset.range K, (lib.get 0).pc a = 1) (hpost : post 0 = 1) (a : Nat)
    (ha : a < K) :
    Normalize (mixtureRow K lib post old) K a = (lib.get 0).pc a := by
  have hsum : ∑ a in Finset.range K, mixtureRow K lib post old a = 1 := by
    rw [mixtureRow_sum, hsize]
    simp [hpost, hpc]
  rw [Normalize_of_sum_one _ _ hsum]
  simp [mixtureRow, ha, hsize, hpost]

/-! ## Facts about the concrete scenario -/

theorem stateA_pc_sum : ∑ a in Finset.range 4, stateA.pc a = 1 := by
  simp [Finset.sum_range_succ, stateA]
  norm_num

theorem stateB_pc_sum : ∑ a in Finset.range 4, stateB.pc a = 1 := by
  simp [Finset.sum_range_succ, stateB]
  norm_num

theorem lib2_isDistribution (k : Nat) (_hk : k < lib2.size) :
    IsDistribution abc4.kSize (lib2.get k).pc := by
  by_cases h : k = 0
  · refine ⟨fun a _ => ?_, by simpa [lib2, h, abc4] using stateA_pc_sum⟩
    simp only [lib2, h, if_true, stateA]
    split_ifs <;> norm_num
  · refine ⟨fun a _ => ?_, by simpa [lib2, h, abc4] using stateB_pc_sum⟩
    simp only [lib2, h, if_false, stateB]
    split_ifs <;> norm_num

theorem posterior2_isDistribution (ppi : Row ℚ) :
    IsDistribution lib2.size (Function.update (Function.update ppi 0 (9 / 10)) 1 (1 / 10)) := by
  refine ⟨fun k hk => ?_, ?_⟩
  · have hk2 : k < 2 := hk
    interval_cases k <;> norm_num [Function.update]
  · simp [lib2, Finset.sum_range_succ]
    norm_num

/-! ## Posterior probabilities -/

theorem forLoop_const_cells {α : Type} (c : Nat → α) (K : Nat) (r : Row α) :
    forLoop 0 K (fun a pc => Function.update pc a (c a)) r
      = fun a => if a < K then c a else r a :=
  forLoop_cells (fun a _ => c a) K r

theorem forLoop_div_cells {α : Type} [Div α] (s : α) (K : Nat) (r : Row α) :
    forLoop 0 K (fun a pc => Function.update pc a (pc a / s)) r
      = fun a => if a < K then r a / s else r a :=
  forLoop_cells (fun _ x => x / s) K r

/-- The running-maximum loop returns an upper bound of the scores that is
attained. -/
theorem forLoop_max {α : Type} [LinearOrder α] (score : Nat → α) (m : Nat) :
    (∀ k, k < m + 1 →
      score k ≤ forLoop 1 (m + 1) (fun k mx => if score k > mx then score k else mx) (score 0)) ∧
    ∃ k, k < m + 1 ∧
      score k = forLoop 1 (m + 1) (fun k mx => if score k > mx then score k else mx) (score 0) := by
  induction m with
  | zero =>
    rw [forLoop_empty]
    exact ⟨fun k hk => by have : k = 0 := by omega
                          rw [this], 0, by omega, rfl⟩
  | succ m ih =>
    rw [forLoop_succ 1 (m + 1) (by omega)]
    obtain ⟨hub, j, hj, hjeq⟩ := ih
    by_cases hgt : score (m + 1) >
        forLoop 1 (m + 1) (fun k mx => if score k > mx then score k else mx) (score 0)
    · simp only [hgt, if_true]
      refine ⟨fun k hk => ?_, m + 1, by omega, rfl⟩
      by_cases hk2 : k = m + 1
      · rw [hk2]
      · exact le_of_lt (lt_of_le_of_lt (hub k (by omega)) hgt)
    · simp only [hgt, if_false]
      refine ⟨fun k hk => ?_, j, by omega, hjeq⟩
      by_cases hk2 : k = m + 1
      · rw [hk2]; exact not_lt.mp hgt
      · exact hub k (by omega)

/-- The modelled posterior with the real exponential, unfolded. -/
theorem CalculatePosteriorProbs_real (score : Nat → ℝ) (n : Nat) (hn : 0 < n) (ppi : Row ℝ) :
    CalculatePosteriorProbs Real.exp score n ppi
      = fun k => if k < n then
          Real.exp (score k - forLoop 1 n (fun k mx => if score k > mx then score k else mx)
              (score 0))
            / ∑ j in Finset.range n, Real.exp (score j -
                forLoop 1 n (fun k mx => if score k > mx then score k else mx) (score 0))
        else ppi k := by
  unfold CalculatePosteriorProbs
  simp only [forLoop_const_cells, forLoop_sum, forLoop_div_cells]
  have e : ∑ i in Finset.range n,
      (if i < n then Real.exp (score i -
          forLoop 1 n (fun k mx => if score k > mx then score k else mx) (score 0))
        else ppi i)
      = ∑ j in Finset.range n, Real.exp (score j -
          forLoop 1 n (fun k mx => if score k > mx then score k else mx) (score 0)) :=
    Finset.sum_congr rfl (fun i hi => by simp [Finset.mem_range.mp hi])
  have hpos : 0 < ∑ j in Finset.range n, Real.exp (score j -
      forLoop 1 n (fun k mx => if score k > mx then score k else mx) (score 0)) :=
    Finset.sum_pos (fun j _ => Real.exp_pos _) ⟨0, Finset.mem_range.mpr hn⟩
  rw [e, if_neg (ne_of_gt hpos)]
  funext k
  by_cases hk : k < n <;> simp [hk]

/-! ## Independence of the iterations -/

/-- Steps on different rows commute. -/
theorem rowStep_comm {α : Type} (r r' : Nat) (h : r ≠ r') (post post' : Row α → Row α)
    (mk mk' : Row α → Row α → Row α) (st : AggState α) :
    rowStep r' post' mk' (rowStep r post mk st) = rowStep r post mk (rowStep r' post' mk' st) := by
  simp only [rowStep, Profile.setRow, Function.update_noteq h, Function.update_noteq h.symm]
  rw [Function.update_comm h, Function.update_comm h]

/-- A loop whose iterations are steps on pairwise different rows gives the
same state in every order of the iterations. -/
theorem runBody_perm {α : Type} (row : Nat → Nat) (post : Nat → Row α → Row α)
    (mk : Nat → Row α → Row α → Row α) (body : Nat → AggState α → AggState α)
    (hbody : ∀ i st, body i st = rowStep (row i) (post i) (mk i) st)
    (l₁ l₂ : List Nat) (hperm : l₁.Perm l₂)
    (hinj : ∀ x ∈ l₁, ∀ y ∈ l₁, row x = row y → x = y) (init : AggState α) :
    runBody body l₁ init = runBody body l₂ init := by
  unfold runBody
  apply List.Perm.foldl_eq' hperm
  intro x hx y hy z
  by_cases hxy : x = y
  · rw [hxy]
  · rw [hbody, hbody, hbody, hbody]
    exact rowStep_comm (row x) (row y) (fun e => hxy (hinj x hx y hy e)) _ _ _ _ z

theorem mem_forLoopIndices {lo hi i : Nat} : i ∈ forLoopIndices lo hi ↔ lo ≤ i ∧ i < hi := by
  simp only [forLoopIndices, List.mem_range'_1]
  omega

/-! ## The empty library and concrete evaluations -/

theorem mixtureRow_empty {α : Type} [Semiring α] (K : Nat) (lib : ContextLibrary α)
    (hsize : lib.size = 0) (post old : Row α) :
    mixtureRow K lib post old = fun a => if a < K then 0 else old a := by
  funext a
  simp [mixtureRow, hsize]

theorem Normalize_cleared {α : Type} [Field α] [DecidableEq α] (K : Nat) (old : Row α) :
    Normalize (fun a => if a < K then 0 else old a) K = fun a => if a < K then 0 else old a := by
  have hsum : ∑ a in Finset.range K, (if a < K then (0 : α) else old a) = 0 :=
    Finset.sum_eq_zero (fun a ha => by simp [Finset.mem_range.mp ha])
  unfold Normalize
  simp only [forLoop_sum, hsum, if_true]

theorem mixture2_sum (old : Row ℚ) :
    ∑ a in Finset.range 4, mixtureRow 4 lib2
      (Function.update (Function.update (zeroMatrix 0) 0 (9 / 10)) 1 (1 / 10)) old a = 1 := by
  simp [mixtureRow, lib2, Finset.sum_range_succ, stateA, stateB]
  norm_num

theorem aggregated_congr {α : Type} [Semiring α] (normalize : Row α → Nat → Row α) (K : Nat)
    (lib : ContextLibrary α) (post post' : Nat → Row α) (L : Nat) (p : Profile α)
    (h : ∀ i, i < L → post i = post' i) :
    aggregated normalize K lib post L p = aggregated normalize K lib post' L p := by
  unfold aggregated
  congr 1
  funext i
  by_cases hi : i < L
  · simp only [hi, if_true, h i hi]
  · simp only [hi, if_false]

theorem forLoopIndices_zero (L : Nat) : forLoopIndices 0 L = List.range L := by
  simp [forLoopIndices, List.range_eq_range']

theorem forLoopIndices_one (L : Nat) :
    forLoopIndices 1 (L + 1) = (List.range L).map (fun i => i + 1) := by
  simp only [forLoopIndices, Nat.add_sub_cancel]
  rw [List.range'_eq_map_range]
  simp [Nat.add_comm]

/-! ## `CrfState::Init` -/

theorem MAX_eq_max {α : Type} [LinearOrder α] (a b : α) : MAX a b = max a b := by
  unfold MAX
  by_cases h : a > b
  · rw [if_pos h, max_eq_left (le_of_lt h)]
  · rw [if_neg h, max_eq_right (not_lt.mp h)]

theorem DBL_MIN_pos {α : Type} [LinearOrderedField α] : (0 : α) < DBL_MIN := by
  unfold DBL_MIN
  positivity

/-- A loop rewriting row `j` of a profile from the old content of that row. -/
theorem forLoop_setRow {α : Type} (g : Nat → Row α → Row α) (W : Nat) (cw : Profile α) :
    forLoop 0 W (fun j cw => cw.setRow j (g j (cw.data j))) cw
      = { length := cw.length,
          data := fun j => if j < W then g j (cw.data j) else cw.data j } := by
  induction W with
  | zero => simp [forLoop_empty]
  | succ W ih =>
    rw [forLoop_succ 0 W (by omega), ih]
    simp only [Profile.setRow, lt_irrefl, if_false]
    congr 1
    funext j
    by_cases h : j = W
    · subst h; simp
    · have : j < W + 1 ↔ j < W := by omega
      simp [Function.update_noteq h, this]

/-- The state left by `CrfState::Init` on a profile with an odd number of
columns, member by member. -/
theorem CrfState.Init_eq {α : Type} [LinearOrderedField α] (log : α → α)
    (env : CrfCollaborators α) (abc : Abc) (self : CrfState α) (prior : α) (prof : Profile α)
    (col : Row α) (weight_center weight_decay : α) (hodd : prof.length % 2 = 1) :
    CrfState.Init log env abc self prior prof col weight_center weight_decay
      = some
        { name := self.name,
          bias_weight := log (MAX prior DBL_MIN),
          context_weights :=
            { length := prof.length,
              data := fun j =>
                if j < prof.length then
                  Function.update
                    (fun a => if a < abc.kSize then
                        columnWeights env.stackArray weight_center weight_decay
                            ((prof.length - 1) / 2) j
                          * log (MAX ((env.NormalizeProfile prof 1).data j a) DBL_MIN)
                      else env.freshProfile j a)
                    abc.kAny 0
                else env.freshProfile j },
          pc_weights :=
            Function.update
              (fun a => if a < abc.kSize then log (MAX (env.NormalizeColumn col 1 a) DBL_MIN)
                else self.pc_weights a)
              abc.kAny 0,
          pc := env.pcOfWeights
            (Function.update
              (fun a => if a < abc.kSize then log (MAX (env.NormalizeColumn col 1 a) DBL_MIN)
                else self.pc_weights a)
              abc.kAny 0) } := by
  have hand : ¬ (prof.length &&& 1 = 0) := by
    rw [Nat.and_one_is_mod]
    omega
  unfold CrfState.Init
  rw [if_neg hand]
  simp only [CrfState.length, UpdatePseudocounts, forLoop_const_cells]
  rw [forLoop_setRow (fun j row => Function.update
    (fun a => if a < abc.kSize then
        Function.update
            (forLoop 1 ((prof.length - 1) / 2 + 1) (fun i weights =>
              Function.update (Function.update weights ((prof.length - 1) / 2 - i)
                (weight_center * weight_decay ^ i)) ((prof.length - 1) / 2 + i)
                (weight_center * weight_decay ^ i)) env.stackArray)
            ((prof.length - 1) / 2) weight_center j
          * log (MAX ((env.NormalizeProfile prof 1).data j a) DBL_MIN)
      else row a) abc.kAny 0)]
  simp only [columnWeights]

/-! ## Claims -/

/-- C1: for matching lengths and every position `i` below the input length, the
output row `i` of `AddToSequence` and of `AddToProfile` is `Normalize` applied
to a row whose cell `a`, for every symbol `a < K`, is the sum over the library
states `k` of `posterior_i[k] * lib[k].pc[a]`, where `posterior_i` is what
`CalculatePosteriorProbs` wrote for position `i` into the zeroed buffer. -/
theorem C1_row_handed_to_Normalize {α G : Type} [Semiring α] (ext : Collaborators α G)
    (self : LibraryPseudocounts α) (abc : Abc) (seq : Sequence) (cp : CountProfile α)
    (p : Profile α) (i : Nat) (hseq : seq.length = p.length)
    (hcp : cp.counts.length = p.length) (hi : i < p.length) :
    (∃ row : Row α,
      (AddToSequence ext self abc seq p).2.data i = ext.Normalize row abc.kSize ∧
      row = mixtureRow abc.kSize self.lib_
              (ext.ppSeq self.lib_ self.emission_ seq i (zeroMatrix i)) (p.data i) ∧
      ∀ a, a < abc.kSize → row a = ∑ k in Finset.range self.lib_.size,
        ext.ppSeq self.lib_ self.emission_ seq i (zeroMatrix i) k * (self.lib_.get k).pc a) ∧
    (∃ row : Row α,
      (AddToProfile ext self abc cp p).2.data i = ext.Normalize row abc.kSize ∧
      row = mixtureRow abc.kSize self.lib_
              (ext.ppProfile self.lib_ self.emission_ cp i (zeroMatrix i)) (p.data i) ∧
      ∀ a, a < abc.kSize → row a = ∑ k in Finset.range self.lib_.size,
        ext.ppProfile self.lib_ self.emission_ cp i (zeroMatrix i) k * (self.lib_.get k).pc a) := by
  refine ⟨⟨_, ?_, rfl, ?_⟩, ⟨_, ?_, rfl, ?_⟩⟩
  · rw [AddToSequence_eq ext self abc seq p hseq]
    simp [aggregated, hseq, hi]
  · intro a ha
    simp [mixtureRow, ha]
  · rw [AddToProfile_eq ext self abc cp p hcp]
    simp [aggregated, hcp, hi]
  · intro a ha
    simp [mixtureRow, ha]

/-- Witness for C1 on the two-state scenario, position 1. -/
theorem C1_row_handed_to_Normalize_witness :
    (∃ row : Row ℚ,
      (AddToSequence collaborators2 pseudocounts2 abc4 seq000 out3).2.data 1
        = collaborators2.Normalize row abc4.kSize ∧
      row = mixtureRow abc4.kSize pseudocounts2.lib_
              (collaborators2.ppSeq pseudocounts2.lib_ pseudocounts2.emission_ seq000 1
                (zeroMatrix 1)) (out3.data 1) ∧
      ∀ a, a < abc4.kSize → row a = ∑ k in Finset.range pseudocounts2.lib_.size,
        collaborators2.ppSeq pseudocounts2.lib_ pseudocounts2.emission_ seq000 1
          (zeroMatrix 1) k * (pseudocounts2.lib_.get k).pc a) ∧
    (∃ row : Row ℚ,
      (AddToProfile collaborators2 pseudocounts2 abc4 cp3 out3).2.data 1
        = collaborators2.Normalize row abc4.kSize ∧
      row = mixtureRow abc4.kSize pseudocounts2.lib_
              (collaborators2.ppProfile pseudocounts2.lib_ pseudocounts2.emission_ cp3 1
                (zeroMatrix 1)) (out3.data 1) ∧
      ∀ a, a < abc4.kSize → row a = ∑ k in Finset.range pseudocounts2.lib_.size,
        collaborators2.ppProfile pseudocounts2.lib_ pseudocounts2.emission_ cp3 1
          (zeroMatrix 1) k * (pseudocounts2.lib_.get k).pc a) :=
  C1_row_handed_to_Normalize collaborators2 pseudocounts2 abc4 seq000 cp3 out3 1 rfl rfl
    (by decide)

/-- C2: when every library state's `pc` is a distribution over the `K` symbols
and the posterior of every position is a distribution over the library states,
every output row `i < L` written by `AddToSequence`, `AddToProfile` and
`AddToPOHmm` has non-negative entries that sum to one (exact arithmetic, with
the modelled `Normalize`). -/
theorem C2_output_rows_are_distributions {α G : Type} [LinearOrderedField α] [DecidableEq α]
    (ext : Collaborators α G) (hN : ext.Normalize = Normalize)
    (self : LibraryPseudocounts α) (abc : Abc) (seq : Sequence) (cp : CountProfile α)
    (hmm : POHmm G) (p : Profile α) (L : Nat)
    (hseq : seq.length = L) (hcp : cp.counts.length = L) (hhmm : hmm.size = L)
    (hp : p.length = L)
    (hlib : ∀ k, k < self.lib_.size → IsDistribution abc.kSize (self.lib_.get k).pc)
    (hpostSeq : ∀ j, j < L → IsDistribution self.lib_.size
      (ext.ppSeq self.lib_ self.emission_ seq j (zeroMatrix j)))
    (hpostProfile : ∀ j, j < L → IsDistribution self.lib_.size
      (ext.ppProfile self.lib_ self.emission_ cp j (zeroMatrix j)))
    (hpostGraph : ∀ j, j < L → IsDistribution self.lib_.size
      (ext.ppGraph self.lib_ self.emission_ hmm.g (j + 1) (zeroMatrix j)))
    (i : Nat) (hi : i < L) :
    IsDistribution abc.kSize ((AddToSequence ext self abc seq p).2.data i) ∧
    IsDistribution abc.kSize ((AddToProfile ext self abc cp p).2.data i) ∧
    IsDistribution abc.kSize ((AddToPOHmm ext self abc hmm p).2.data i) := by
  rw [AddToSequence_eq ext self abc seq p (by omega),
    AddToProfile_eq ext self abc cp p (by omega), AddToPOHmm_eq ext self abc hmm p]
  simp only [aggregated, hseq, hcp, hhmm, hi, if_true, hN]
  exact ⟨Normalize_mixtureRow_isDistribution _ _ _ _ hlib (hpostSeq i hi),
    Normalize_mixtureRow_isDistribution _ _ _ _ hlib (hpostProfile i hi),
    Normalize_mixtureRow_isDistribution _ _ _ _ hlib (hpostGraph i hi)⟩

/-- Witness for C2 on the two-state scenario, position 1. -/
theorem C2_output_rows_are_distributions_witness :
    IsDistribution abc4.kSize
      ((AddToSequence collaborators2 pseudocounts2 abc4 seq000 out3).2.data 1) ∧
    IsDistribution abc4.kSize
      ((AddToProfile collaborators2 pseudocounts2 abc4 cp3 out3).2.data 1) ∧
    IsDistribution abc4.kSize
      ((AddToPOHmm collaborators2 pseudocounts2 abc4 pohmm3 out3).2.data 1) :=
  C2_output_rows_are_distributions collaborators2 rfl pseudocounts2 abc4 seq000 cp3 pohmm3
    out3 3 rfl rfl rfl rfl lib2_isDistribution
    (fun _ _ => posterior2_isDistribution _) (fun _ _ => posterior2_isDistribution _)
    (fun _ _ => posterior2_isDistribution _) 1 (by decide)

/-- C3: for a library of exactly one state whose `pc` sums to one over the `K`
symbols, and posterior one for that state at every position, every output row
`i < L` written by `AddToSequence`, `AddToProfile` and `AddToPOHmm` equals that
state's `pc` on every symbol `a < K` (with the modelled `Normalize`). -/
theorem C3_single_state_library {α G : Type} [Field α] [DecidableEq α]
    (ext : Collaborators α G) (hN : ext.Normalize = Normalize)
    (self : LibraryPseudocounts α) (abc : Abc) (seq : Sequence) (cp : CountProfile α)
    (hmm : POHmm G) (p : Profile α) (L : Nat)
    (hseq : seq.length = L) (hcp : cp.counts.length = L) (hhmm : hmm.size = L)
    (hp : p.length = L)
    (hsize : self.lib_.size = 1)
    (hpc : ∑ a in Finset.range abc.kSize, (self.lib_.get 0).pc a = 1)
    (hpostSeq : ∀ j, j < L → ext.ppSeq self.lib_ self.emission_ seq j (zeroMatrix j) 0 = 1)
    (hpostProfile : ∀ j, j < L →
      ext.ppProfile self.lib_ self.emission_ cp j (zeroMatrix j) 0 = 1)
    (hpostGraph : ∀ j, j < L →
      ext.ppGraph self.lib_ self.emission_ hmm.g (j + 1) (zeroMatrix j) 0 = 1)
    (i : Nat) (hi : i < L) (a : Nat) (ha : a < abc.kSize) :
    (AddToSequence ext self abc seq p).2.data i a = (self.lib_.get 0).pc a ∧
    (AddToProfile ext self abc cp p).2.data i a = (self.lib_.get 0).pc a ∧
    (AddToPOHmm ext self abc hmm p).2.data i a = (self.lib_.get 0).pc a := by
  rw [AddToSequence_eq ext self abc seq p (by omega),
    AddToProfile_eq ext self abc cp p (by omega), AddToPOHmm_eq ext self abc hmm p]
  simp only [aggregated, hseq, hcp, hhmm, hi, if_true, hN]
  exact ⟨Normalize_mixtureRow_single _ _ _ _ hsize hpc (hpostSeq i hi) a ha,
    Normalize_mixtureRow_single _ _ _ _ hsize hpc (hpostProfile i hi) a ha,
    Normalize_mixtureRow_single _ _ _ _ hsize hpc (hpostGraph i hi) a ha⟩

/-- Witness for C3 on the one-state library, position 2, symbol 0. -/
theorem C3_single_state_library_witness :
    (AddToSequence collaborators1 pseudocounts1 abc4 seq000 out3).2.data 2 0
      = (pseudocounts1.lib_.get 0).pc 0 ∧
    (AddToProfile collaborators1 pseudocounts1 abc4 cp3 out3).2.data 2 0
      = (pseudocounts1.lib_.get 0).pc 0 ∧
    (AddToPOHmm collaborators1 pseudocounts1 abc4 pohmm3 out3).2.data 2 0
      = (pseudocounts1.lib_.get 0).pc 0 :=
  C3_single_state_library collaborators1 rfl pseudocounts1 abc4 seq000 cp3 pohmm3 out3 3
    rfl rfl rfl rfl rfl stateA_pc_sum
    (fun _ _ => by simp [collaborators1]) (fun _ _ => by simp [collaborators1])
    (fun _ _ => by simp [collaborators1]) 2 (by decide) 0 (by decide)

/-- C4: for a non-empty library (`n > 0` states) the posterior vector written by
the modelled `CalculatePosteriorProbs` into the buffer `ppi` is, on every
state `k < n`, `exp(score[k] - M)` divided by the sum of these terms over the
states, where `M` is the largest score; it sums to one; and when all scores
are equal it is the uniform distribution `1 / n`. -/
theorem C4_posterior_is_softmax (score : Nat → ℝ) (n : Nat) (hn : 0 < n) (ppi : Row ℝ) :
    (∃ M : ℝ, (∀ k, k < n → score k ≤ M) ∧ (∃ k, k < n ∧ score k = M) ∧
      ∀ k, k < n → CalculatePosteriorProbs Real.exp score n ppi k
        = Real.exp (score k - M) / ∑ j in Finset.range n, Real.exp (score j - M)) ∧
    ∑ k in Finset.range n, CalculatePosteriorProbs Real.exp score n ppi k = 1 ∧
    ((∀ k, k < n → score k = score 0) →
      ∀ k, k < n → CalculatePosteriorProbs Real.exp score n ppi k = 1 / (n : ℝ)) := by
  obtain ⟨m, rfl⟩ : ∃ m, n = m + 1 := ⟨n - 1, by omega⟩
  obtain ⟨hub, hatt⟩ := forLoop_max score m
  rw [CalculatePosteriorProbs_real score (m + 1) hn ppi]
  generalize forLoop 1 (m + 1) (fun k mx => if score k > mx then score k else mx) (score 0)
    = M at hub hatt ⊢
  have hpos : 0 < ∑ j in Finset.range (m + 1), Real.exp (score j - M) :=
    Finset.sum_pos (fun j _ => Real.exp_pos _) ⟨0, Finset.mem_range.mpr hn⟩
  refine ⟨⟨M, hub, hatt, fun k hk => by simp only [hk, if_true]⟩, ?_, ?_⟩
  · have e : ∀ k ∈ Finset.range (m + 1),
        (if k < m + 1 then Real.exp (score k - M)
            / ∑ j in Finset.range (m + 1), Real.exp (score j - M) else ppi k)
        = Real.exp (score k - M) / ∑ j in Finset.range (m + 1), Real.exp (score j - M) :=
      fun k hk => by simp only [Finset.mem_range.mp hk, if_true]
    rw [Finset.sum_congr rfl e, ← Finset.sum_div]
    exact div_self (ne_of_gt hpos)
  · intro heq k hk
    have hM : M = score 0 := by
      obtain ⟨j, hj, hjM⟩ := hatt
      rw [← hjM, heq j hj]
    have e : ∀ j ∈ Finset.range (m + 1), Real.exp (score j - M) = 1 := by
      intro j hj
      rw [heq j (Finset.mem_range.mp hj), hM, sub_self, Real.exp_zero]
    simp only [hk, if_true]
    rw [Finset.sum_congr rfl e, heq k hk, hM, sub_self, Real.exp_zero]
    simp

/-- Witness for C4: two states with equal scores; the posterior sums to one and
the second state has posterior one half. -/
theorem C4_posterior_is_softmax_witness :
    ∑ k in Finset.range 2,
        CalculatePosteriorProbs Real.exp (fun _ => (0 : ℝ)) 2 (fun _ => 0) k = 1 ∧
    CalculatePosteriorProbs Real.exp (fun _ => (0 : ℝ)) 2 (fun _ => 0) 1
      = 1 / ((2 : Nat) : ℝ) :=
  ⟨(C4_posterior_is_softmax (fun _ => (0 : ℝ)) 2 (by decide) (fun _ => 0)).2.1,
    (C4_posterior_is_softmax (fun _ => (0 : ℝ)) 2 (by decide) (fun _ => 0)).2.2
      (fun _ _ => rfl) 1 (by decide)⟩

/-- C5 (the code at the failing input): a graph of three vertices and an output
profile of four rows differ in length, yet `AddToPOHmm` ends normally and has
written output row 0 (cell 0 goes from 0 to 16/25); `AddToSequence` on a
sequence of three symbols and the same profile stops at its assertion and
returns the profile untouched. -/
theorem C5_AddToPOHmm_accepts_length_mismatch :
    pohmm3.size ≠ out4.length ∧
    (AddToPOHmm collaborators2 pseudocounts2 abc4 pohmm3 out4).1 = Outcome.ok ∧
    (AddToPOHmm collaborators2 pseudocounts2 abc4 pohmm3 out4).2.data 0 0 = 16 / 25 ∧
    out4.data 0 0 = 0 ∧
    AddToSequence collaborators2 pseudocounts2 abc4 seq000 out4
      = (Outcome.assertion_failed, out4) := by
  refine ⟨by decide, rfl, ?_, rfl, by simp [AddToSequence, seq000, out4]⟩
  rw [AddToPOHmm_eq]
  simp only [aggregated, pohmm3, collaborators2, abc4, pseudocounts2, LibraryPseudocounts.new]
  rw [if_pos (by decide), Normalize_of_sum_one _ _ (mixture2_sum _)]
  simp [mixtureRow, lib2, Finset.sum_range_succ, stateA, stateB]
  norm_num

/-- C6 (counterexample): with the empty library, a sequence of three symbols and
an output profile of three uniform rows, `AddToSequence` reports no error and
output row 0 is modified (cell 0 goes from 1/4 to 0). -/
theorem C6_empty_library_counterexample :
    pseudocounts0.lib_.size = 0 ∧
    (AddToSequence collaborators0 pseudocounts0 abc4 seq000 uniformProfile3).1 = Outcome.ok ∧
    (AddToSequence collaborators0 pseudocounts0 abc4 seq000 uniformProfile3).2.data 0 0
      ≠ uniformProfile3.data 0 0 := by
  refine ⟨rfl, rfl, ?_⟩
  rw [AddToSequence_eq _ _ _ _ _ rfl]
  simp only [aggregated, seq000, collaborators0]
  rw [if_pos (by decide), mixtureRow_empty _ _ rfl, Normalize_cleared]
  simp [abc4, uniformProfile3]

/-- C6 (amended): with an empty library and an input whose length matches the
output profile, the call reports no error and processes every position: each
output row `i < L` is `Normalize` applied to the row whose `K` symbol cells
were set to zero; rows from `L` on are not modified. -/
theorem C6_empty_library_rows_cleared {α G : Type} [Semiring α] (ext : Collaborators α G)
    (self : LibraryPseudocounts α) (abc : Abc) (seq : Sequence) (cp : CountProfile α)
    (hmm : POHmm G) (p : Profile α) (hsize : self.lib_.size = 0)
    (hseq : seq.length = p.length) (hcp : cp.counts.length = p.length) :
    AddToSequence ext self abc seq p
      = (Outcome.ok, Profile.mk p.length (fun i =>
          if i < seq.length then
            ext.Normalize (fun a => if a < abc.kSize then 0 else p.data i a) abc.kSize
          else p.data i)) ∧
    AddToProfile ext self abc cp p
      = (Outcome.ok, Profile.mk p.length (fun i =>
          if i < cp.counts.length then
            ext.Normalize (fun a => if a < abc.kSize then 0 else p.data i a) abc.kSize
          else p.data i)) ∧
    AddToPOHmm ext self abc hmm p
      = (Outcome.ok, Profile.mk p.length (fun i =>
          if i < hmm.size then
            ext.Normalize (fun a => if a < abc.kSize then 0 else p.data i a) abc.kSize
          else p.data i)) := by
  rw [AddToSequence_eq ext self abc seq p hseq, AddToProfile_eq ext self abc cp p hcp,
    AddToPOHmm_eq ext self abc hmm p]
  simp [aggregated, mixtureRow_empty _ _ hsize]

/-- Witness for the amended C6: the empty library on the three-symbol input. -/
theorem C6_empty_library_rows_cleared_witness :
    AddToSequence collaborators0 pseudocounts0 abc4 seq000 out3
      = (Outcome.ok, Profile.mk out3.length (fun i =>
          if i < seq000.length then
            collaborators0.Normalize (fun a => if a < abc4.kSize then 0 else out3.data i a)
              abc4.kSize
          else out3.data i)) :=
  (C6_empty_library_rows_cleared collaborators0 pseudocounts0 abc4 seq000 cp3 pohmm3 out3
    rfl rfl rfl).1

/-- C7: for one library, inputs of one length `L` and an output profile of `L`
rows, when the posterior written for position `i` of the sequence, for
position `i` of the count profile and for vertex `i + 1` of the graph are the
same for every `i < L`, the three functions return the same outcome and the
same output profile; the vertices `1..L` visited by `AddToPOHmm` map, by
`i ↦ i - 1`, onto the rows `0, 1, ..., L-1`, each exactly once. -/
theorem C7_three_input_kinds_agree {α G : Type} [Semiring α] (ext : Collaborators α G)
    (self : LibraryPseudocounts α) (abc : Abc) (seq : Sequence) (cp : CountProfile α)
    (hmm : POHmm G) (p : Profile α) (L : Nat)
    (hseq : seq.length = L) (hcp : cp.counts.length = L) (hhmm : hmm.size = L)
    (hp : p.length = L)
    (hpost : ∀ i, i < L →
      ext.ppSeq self.lib_ self.emission_ seq i (zeroMatrix i)
        = ext.ppGraph self.lib_ self.emission_ hmm.g (i + 1) (zeroMatrix i) ∧
      ext.ppProfile self.lib_ self.emission_ cp i (zeroMatrix i)
        = ext.ppGraph self.lib_ self.emission_ hmm.g (i + 1) (zeroMatrix i)) :
    AddToSequence ext self abc seq p = AddToPOHmm ext self abc hmm p ∧
    AddToProfile ext self abc cp p = AddToPOHmm ext self abc hmm p ∧
    (forLoopIndices 1 (hmm.size + 1)).map (fun i => i - 1) = List.range L := by
  rw [AddToSequence_eq ext self abc seq p (by omega),
    AddToProfile_eq ext self abc cp p (by omega), AddToPOHmm_eq ext self abc hmm p,
    hseq, hcp, hhmm]
  refine ⟨?_, ?_, ?_⟩
  · rw [aggregated_congr _ _ _ _ _ L p (fun i hi => (hpost i hi).1)]
  · rw [aggregated_congr _ _ _ _ _ L p (fun i hi => (hpost i hi).2)]
  · rw [forLoopIndices_one, List.map_map]
    have e : ((fun i : Nat => i - 1) ∘ fun i => i + 1) = id := by
      funext i
      simp
    rw [e, List.map_id]

/-- Witness for C7 on the two-state scenario. -/
theorem C7_three_input_kinds_agree_witness :
    AddToSequence collaborators2 pseudocounts2 abc4 seq000 out3
      = AddToPOHmm collaborators2 pseudocounts2 abc4 pohmm3 out3 ∧
    AddToProfile collaborators2 pseudocounts2 abc4 cp3 out3
      = AddToPOHmm collaborators2 pseudocounts2 abc4 pohmm3 out3 ∧
    (forLoopIndices 1 (pohmm3.size + 1)).map (fun i => i - 1) = List.range 3 :=
  C7_three_input_kinds_agree collaborators2 pseudocounts2 abc4 seq000 cp3 pohmm3 out3 3
    rfl rfl rfl rfl (fun _ _ => ⟨rfl, rfl⟩)

/-- C8: running the iterations of the position loop in any order `o₁` that is a
permutation of `0, ..., L-1` (for `AddToPOHmm`, the vertices `i + 1` in that
order) gives the same outcome and output profile as the loop in increasing
order, and any two such orders `o₁`, `o₂` give the same result. -/
theorem C8_iteration_order_irrelevant {α G : Type} [Semiring α] (ext : Collaborators α G)
    (self : LibraryPseudocounts α) (abc : Abc) (seq : Sequence) (cp : CountProfile α)
    (hmm : POHmm G) (p : Profile α) (L : Nat) (o₁ o₂ : List Nat)
    (hseq : seq.length = L) (hcp : cp.counts.length = L) (hhmm : hmm.size = L)
    (h₁ : o₁.Perm (List.range L)) (h₂ : o₂.Perm (List.range L)) :
    (AddToSequence_scheduled o₁ ext self abc seq p = AddToSequence ext self abc seq p ∧
      AddToSequence_scheduled o₁ ext self abc seq p
        = AddToSequence_scheduled o₂ ext self abc seq p) ∧
    (AddToProfile_scheduled o₁ ext self abc cp p = AddToProfile ext self abc cp p ∧
      AddToProfile_scheduled o₁ ext self abc cp p
        = AddToProfile_scheduled o₂ ext self abc cp p) ∧
    (AddToPOHmm_scheduled (o₁.map (fun i => i + 1)) ext self abc hmm p
        = AddToPOHmm ext self abc hmm p ∧
      AddToPOHmm_scheduled (o₁.map (fun i => i + 1)) ext self abc hmm p
        = AddToPOHmm_scheduled (o₂.map (fun i => i + 1)) ext self abc hmm p) := by
  have hS : ∀ (o o' : List Nat), o.Perm o' → ∀ init : AggState α,
      runBody (AddToSequence_iter ext self abc seq) o init
        = runBody (AddToSequence_iter ext self abc seq) o' init :=
    fun o o' h init => runBody_perm (fun i => i) _ _ _ (AddToSequence_iter_eq ext self abc seq)
      o o' h (fun _ _ _ _ e => e) init
  have hP : ∀ (o o' : List Nat), o.Perm o' → ∀ init : AggState α,
      runBody (AddToProfile_iter ext self abc cp) o init
        = runBody (AddToProfile_iter ext self abc cp) o' init :=
    fun o o' h init => runBody_perm (fun i => i) _ _ _ (AddToProfile_iter_eq ext self abc cp)
      o o' h (fun _ _ _ _ e => e) init
  have hG : ∀ (o o' : List Nat), o.Perm o' → ∀ init : AggState α,
      runBody (AddToPOHmm_iter ext self abc hmm) (o.map (fun i => i + 1)) init
        = runBody (AddToPOHmm_iter ext self abc hmm) (o'.map (fun i => i + 1)) init := by
    intro o o' h init
    refine runBody_perm (fun i => i - 1) _ _ _ (AddToPOHmm_iter_eq ext self abc hmm)
      _ _ (h.map _) ?_ init
    intro x hx y hy e
    obtain ⟨x', _, rfl⟩ := List.mem_map.mp hx
    obtain ⟨y', _, rfl⟩ := List.mem_map.mp hy
    simp only [Nat.add_sub_cancel] at e
    rw [e]
  refine ⟨⟨?_, ?_⟩, ⟨?_, ?_⟩, ⟨?_, ?_⟩⟩
  · simp only [AddToSequence_scheduled, AddToSequence, forLoop, forLoopIndices_zero, hseq,
      hS o₁ _ h₁]
  · simp only [AddToSequence_scheduled, hS o₁ o₂ (h₁.trans h₂.symm)]
  · simp only [AddToProfile_scheduled, AddToProfile, forLoop, forLoopIndices_zero, hcp,
      CountProfile.length, hP o₁ _ h₁]
  · simp only [AddToProfile_scheduled, hP o₁ o₂ (h₁.trans h₂.symm)]
  · simp only [AddToPOHmm_scheduled, AddToPOHmm, forLoop, forLoopIndices_one, hhmm,
      hG o₁ _ h₁]
  · simp only [AddToPOHmm_scheduled, hG o₁ o₂ (h₁.trans h₂.symm)]

/-- Witness for C8: the orders `[2, 0, 1]` and `[1, 2, 0]` on the scenario. -/
theorem C8_iteration_order_irrelevant_witness :
    AddToSequence_scheduled [2, 0, 1] collaborators2 pseudocounts2 abc4 seq000 out3
      = AddToSequence collaborators2 pseudocounts2 abc4 seq000 out3 :=
  (C8_iteration_order_irrelevant collaborators2 pseudocounts2 abc4 seq000 cp3 pohmm3 out3 3
    [2, 0, 1] [1, 2, 0] rfl rfl rfl (by decide) (by decide)).1.1

/-- C9: `CrfState::Init` on a profile with an odd number `W` of columns ends
normally, the state has `W` columns, and the wildcard symbol carries zero
weight: `context_weights[j][kAny] = 0` for every column `j < W` and
`pc_weights[kAny] = 0`. -/
theorem C9_wildcard_weights_zero {α : Type} [LinearOrderedField α] (log : α → α)
    (env : CrfCollaborators α) (abc : Abc) (self : CrfState α) (prior : α) (prof : Profile α)
    (col : Row α) (weight_center weight_decay : α) (hodd : prof.length % 2 = 1) :
    ∃ s : CrfState α,
      CrfState.Init log env abc self prior prof col weight_center weight_decay = some s ∧
      s.length = prof.length ∧
      (∀ j, j < prof.length → s.context_weights.data j abc.kAny = 0) ∧
      s.pc_weights abc.kAny = 0 := by
  refine ⟨_, CrfState.Init_eq log env abc self prior prof col weight_center weight_decay hodd,
    rfl, ?_, ?_⟩
  · intro j hj
    simp only [hj, if_true, Function.update_same]
  · simp only [Function.update_same]

/-- Witness for C9: a uniform profile of three columns over four symbols. -/
theorem C9_wildcard_weights_zero_witness :
    ∃ s : CrfState ℚ,
      CrfState.Init (fun x => x - 1) (plainCrfCollaborators ℚ) abc4 (emptyCrfState ℚ) (1 / 2)
        uniformProfile3 stateA.pc (8 / 5) (17 / 20) = some s ∧
      s.length = uniformProfile3.length ∧
      (∀ j, j < uniformProfile3.length → s.context_weights.data j abc4.kAny = 0) ∧
      s.pc_weights abc4.kAny = 0 :=
  C9_wildcard_weights_zero (fun x => x - 1) (plainCrfCollaborators ℚ) abc4 (emptyCrfState ℚ)
    (1 / 2) uniformProfile3 stateA.pc (8 / 5) (17 / 20) (by decide)

/-- C10: after `CrfState::Init` (real arithmetic, natural logarithm), for every
symbol `a < K`, `pc_weights[a] = log(max(col[a], DBL_MIN))` for the normalised
column `col`; the argument of the logarithm is positive and
`pc_weights[a] ≥ log(DBL_MIN)`; an entry `col[a] = 0` maps to exactly
`log(DBL_MIN)`; likewise `bias_weight = log(max(prior, DBL_MIN))` with a
positive argument and `bias_weight ≥ log(DBL_MIN)`, for every prior. -/
theorem C10_log_weights_clamped (env : CrfCollaborators ℝ) (abc : Abc) (self : CrfState ℝ)
    (prior : ℝ) (prof : Profile ℝ) (col : Row ℝ) (weight_center weight_decay : ℝ)
    (hodd : prof.length % 2 = 1) :
    ∃ s : CrfState ℝ,
      CrfState.Init Real.log env abc self prior prof col weight_center weight_decay = some s ∧
      (∀ a, a < abc.kSize →
        s.pc_weights a = Real.log (max (env.NormalizeColumn col 1 a) DBL_MIN) ∧
        0 < max (env.NormalizeColumn col 1 a) DBL_MIN ∧
        Real.log DBL_MIN ≤ s.pc_weights a ∧
        (env.NormalizeColumn col 1 a = 0 → s.pc_weights a = Real.log DBL_MIN)) ∧
      s.bias_weight = Real.log (max prior DBL_MIN) ∧
      0 < max prior DBL_MIN ∧
      Real.log DBL_MIN ≤ s.bias_weight := by
  have hmin : (0 : ℝ) < DBL_MIN := DBL_MIN_pos
  refine ⟨_, CrfState.Init_eq Real.log env abc self prior prof col weight_center weight_decay
    hodd, ?_, ?_, ?_, ?_⟩
  · intro a ha
    have hne : a ≠ abc.kAny := by
      unfold Abc.kAny
      omega
    refine ⟨?_, lt_of_lt_of_le hmin (le_max_right _ _), ?_, ?_⟩
    · simp only [Function.update_noteq hne, ha, if_true, MAX_eq_max]
    · simp only [Function.update_noteq hne, ha, if_true, MAX_eq_max]
      exact Real.log_le_log hmin (le_max_right _ _)
    · intro h0
      simp only [Function.update_noteq hne, ha, if_true, MAX_eq_max, h0]
      rw [max_eq_right (le_of_lt hmin)]
  · simp only [MAX_eq_max]
  · exact lt_of_lt_of_le hmin (le_max_right _ _)
  · simp only [MAX_eq_max]
    exact Real.log_le_log hmin (le_max_right _ _)

/-- Witness for C10: a three-column profile and prior zero. -/
theorem C10_log_weights_clamped_witness :
    ∃ s : CrfState ℝ,
      CrfState.Init Real.log (plainCrfCollaborators ℝ) abc4 (emptyCrfState ℝ) 0
        (Profile.mk 3 (fun _ _ => 0)) (fun _ => 0) 1 1 = some s ∧
      (∀ a, a < abc4.kSize →
        s.pc_weights a
          = Real.log (max ((plainCrfCollaborators ℝ).NormalizeColumn (fun _ => 0) 1 a) DBL_MIN) ∧
        0 < max ((plainCrfCollaborators ℝ).NormalizeColumn (fun _ => 0) 1 a) DBL_MIN ∧
        Real.log DBL_MIN ≤ s.pc_weights a ∧
        ((plainCrfCollaborators ℝ).NormalizeColumn (fun _ => 0) 1 a = 0 →
          s.pc_weights a = Real.log DBL_MIN)) ∧
      s.bias_weight = Real.log (max 0 DBL_MIN) ∧
      0 < max (0 : ℝ) DBL_MIN ∧
      Real.log DBL_MIN ≤ s.bias_weight :=
  C10_log_weights_clamped (plainCrfCollaborators ℝ) abc4 (emptyCrfState ℝ) 0
    (Profile.mk 3 (fun _ _ => 0)) (fun _ => 0) 1 1 (by decide)

/-! ## Column weights of `CrfState::Init` -/

/-- The array `weights` after the iterations `i = 1..m` of the filling loop. -/
theorem columnWeights_loop {α : Type} [Monoid α] (stack : Row α) (weight_center weight_decay : α)
    (c m : Nat) (hm : m ≤ c) :
    forLoop 1 (m + 1) (fun i weights =>
        let weight := weight_center * weight_decay ^ i
        Function.update (Function.update weights (c - i) weight) (c + i) weight) stack
      = fun j => if c - m ≤ j ∧ j ≤ c + m ∧ j ≠ c
          then weight_center * weight_decay ^ columnDistance j c else stack j := by
  induction m with
  | zero =>
    rw [forLoop_empty]
    funext j
    have : ¬ (c - 0 ≤ j ∧ j ≤ c + 0 ∧ j ≠ c) := by omega
    rw [if_neg this]
  | succ m ih =>
    rw [forLoop_succ 1 (m + 1) (by omega), ih (by omega)]
    funext j
    by_cases h1 : j = c + (m + 1)
    · have hd : columnDistance j c = m + 1 := by
        unfold columnDistance
        rw [if_neg (by omega)]
        omega
      have hc : c - (m + 1) ≤ j ∧ j ≤ c + (m + 1) ∧ j ≠ c := by omega
      rw [if_pos hc, hd, h1, Function.update_same]
    · rw [Function.update_noteq h1]
      by_cases h2 : j = c - (m + 1)
      · have hd : columnDistance j c = m + 1 := by
          unfold columnDistance
          rw [if_pos (by omega)]
          omega
        have hc : c - (m + 1) ≤ j ∧ j ≤ c + (m + 1) ∧ j ≠ c := by omega
        rw [if_pos hc, hd, h2, Function.update_same]
      · rw [Function.update_noteq h2]
        by_cases h3 : c - m ≤ j ∧ j ≤ c + m ∧ j ≠ c
        · have hc : c - (m + 1) ≤ j ∧ j ≤ c + (m + 1) ∧ j ≠ c := by omega
          rw [if_pos h3, if_pos hc]
        · have hc : ¬ (c - (m + 1) ≤ j ∧ j ≤ c + (m + 1) ∧ j ≠ c) := by omega
          rw [if_neg h3, if_neg hc]

/-- Every cell `j ≤ 2c` of the array `weights` holds
`weight_center * weight_decay ^ |j - c|`, whatever the array held before. -/
theorem columnWeights_eq {α : Type} [Monoid α] (stack : Row α) (weight_center weight_decay : α)
    (c j : Nat) (hj : j ≤ 2 * c) :
    columnWeights stack weight_center weight_decay c j
      = weight_center * weight_decay ^ columnDistance j c := by
  unfold columnWeights
  have h := columnWeights_loop stack weight_center weight_decay c c (le_refl c)
  simp only at h
  rw [h]
  by_cases hc : j = c
  · subst hc
    simp [columnDistance]
  · rw [Function.update_noteq hc, if_pos (by omega)]

/-- C11: on a profile with an odd number `W` of columns and centre
`c = (W-1)/2`, for every `weight_center` and `weight_decay`, `CrfState::Init`
leaves `context_weights[j][a] = weight_center * weight_decay^|j-c| *
log(max(prof[j][a], DBL_MIN))` for every column `j < W` and symbol `a < K` of
the normalised profile, whatever the array `weights` held before; the column
weights at `c - i` and `c + i` are both `weight_center * weight_decay^i`. -/
theorem C11_context_weights_closed_form {α : Type} [LinearOrderedField α] (log : α → α)
    (env : CrfCollaborators α) (abc : Abc) (self : CrfState α) (prior : α) (prof : Profile α)
    (col : Row α) (weight_center weight_decay : α) (hodd : prof.length % 2 = 1) :
    ∃ s : CrfState α,
      CrfState.Init log env abc self prior prof col weight_center weight_decay = some s ∧
      (∀ j, j < prof.length → ∀ a, a < abc.kSize →
        s.context_weights.data j a
          = weight_center * weight_decay ^ columnDistance j ((prof.length - 1) / 2)
            * log (max ((env.NormalizeProfile prof 1).data j a) DBL_MIN)) ∧
      (∀ i, i ≤ (prof.length - 1) / 2 →
        columnWeights env.stackArray weight_center weight_decay ((prof.length - 1) / 2)
            ((prof.length - 1) / 2 - i) = weight_center * weight_decay ^ i ∧
        columnWeights env.stackArray weight_center weight_decay ((prof.length - 1) / 2)
            ((prof.length - 1) / 2 + i) = weight_center * weight_decay ^ i) := by
  refine ⟨_, CrfState.Init_eq log env abc self prior prof col weight_center weight_decay hodd,
    ?_, ?_⟩
  · intro j hj a ha
    have hne : a ≠ abc.kAny := by
      unfold Abc.kAny
      omega
    simp only [hj, if_true, Function.update_noteq hne, ha, MAX_eq_max]
    rw [columnWeights_eq _ _ _ _ _ (by omega)]
  · intro i hi
    rw [columnWeights_eq _ _ _ _ _ (by omega), columnWeights_eq _ _ _ _ _ (by omega)]
    have h1 : columnDistance ((prof.length - 1) / 2 - i) ((prof.length - 1) / 2) = i := by
      unfold columnDistance
      rw [if_pos (by omega)]
      omega
    have h2 : columnDistance ((prof.length - 1) / 2 + i) ((prof.length - 1) / 2) = i := by
      unfold columnDistance
      split_ifs <;> omega
    rw [h1, h2]
    exact ⟨rfl, rfl⟩

/-- Witness for C11: a uniform profile of three columns over four symbols. -/
theorem C11_context_weights_closed_form_witness :
    ∃ s : CrfState ℚ,
      CrfState.Init (fun x => x - 1) (plainCrfCollaborators ℚ) abc4 (emptyCrfState ℚ) (1 / 2)
        uniformProfile3 stateA.pc (8 / 5) (17 / 20) = some s ∧
      (∀ j, j < uniformProfile3.length → ∀ a, a < abc4.kSize →
        s.context_weights.data j a
          = 8 / 5 * (17 / 20) ^ columnDistance j ((uniformProfile3.length - 1) / 2)
            * (fun x : ℚ => x - 1)
                (max (((plainCrfCollaborators ℚ).NormalizeProfile uniformProfile3 1).data j a)
                  DBL_MIN)) ∧
      (∀ i, i ≤ (uniformProfile3.length - 1) / 2 →
        columnWeights (plainCrfCollaborators ℚ).stackArray (8 / 5) (17 / 20)
            ((uniformProfile3.length - 1) / 2) ((uniformProfile3.length - 1) / 2 - i)
          = 8 / 5 * (17 / 20) ^ i ∧
        columnWeights (plainCrfCollaborators ℚ).stackArray (8 / 5) (17 / 20)
            ((uniformProfile3.length - 1) / 2) ((uniformProfile3.length - 1) / 2 + i)
          = 8 / 5 * (17 / 20) ^ i) :=
  C11_context_weights_closed_form (fun x => x - 1) (plainCrfCollaborators ℚ) abc4
    (emptyCrfState ℚ) (1 / 2) uniformProfile3 stateA.pc (8 / 5) (17 / 20) (by decide)

/-! ## Constructors of `CrfState` and `Crf` -/

theorem CrfState.Init_even {α : Type} [LinearOrderedField α] (log : α → α)
    (env : CrfCollaborators α) (abc : Abc) (self : CrfState α) (prior : α) (prof : Profile α)
    (col : Row α) (weight_center weight_decay : α) (heven : prof.length % 2 = 0) :
    CrfState.Init log env abc self prior prof col weight_center weight_decay = none := by
  have hand : prof.length &&& 1 = 0 := by
    rw [Nat.and_one_is_mod]
    exact heven
  unfold CrfState.Init
  rw [if_pos hand]

theorem CrfState.Init_length {α : Type} [LinearOrderedField α] (log : α → α)
    (env : CrfCollaborators α) (abc : Abc) (self : CrfState α) (prior : α) (prof : Profile α)
    (col : Row α) (weight_center weight_decay : α) (s : CrfState α)
    (h : CrfState.Init log env abc self prior prof col weight_center weight_decay = some s) :
    prof.length % 2 = 1 ∧ s.length = prof.length := by
  by_cases hodd : prof.length % 2 = 1
  · rw [CrfState.Init_eq log env abc self prior prof col weight_center weight_decay hodd] at h
    refine ⟨hodd, ?_⟩
    rw [← Option.some.inj h]
    rfl
  · rw [CrfState.Init_even log env abc self prior prof col weight_center weight_decay
      (by omega)] at h
    exact absurd h (by simp)

theorem CrfState.ofLength_odd {α : Type} [Zero α] (env : CrfCollaborators α) (len : Nat)
    (hodd : len % 2 = 1) :
    CrfState.ofLength env len
      = some { emptyCrfState α with
          bias_weight := 0
          context_weights := { length := len, data := env.freshProfile } } := by
  have hand : ¬ (len &&& 1 = 0) := by
    rw [Nat.and_one_is_mod]
    omega
  unfold CrfState.ofLength
  rw [if_neg hand]

theorem CrfState.ofLength_even {α : Type} [Zero α] (env : CrfCollaborators α) (len : Nat)
    (heven : len % 2 = 0) : CrfState.ofLength env len = none := by
  have hand : len &&& 1 = 0 := by
    rw [Nat.and_one_is_mod]
    exact heven
  unfold CrfState.ofLength
  rw [if_pos hand]

/-- C12: `CrfState(len)` and `CrfState::Init` pass their assertion exactly when
the number of columns is odd; an accepted state has `length()` equal to the
given odd `W`, and its centre index `(W-1)/2` has as many columns to its left,
`(W-1)/2`, as to its right, `W - 1 - (W-1)/2`. -/
theorem C12_odd_window_only {α : Type} [LinearOrderedField α] (log : α → α)
    (env : CrfCollaborators α) (abc : Abc) (self : CrfState α) (prior : α) (prof : Profile α)
    (col : Row α) (weight_center weight_decay : α) (len : Nat) :
    ((CrfState.ofLength env len).isSome = true ↔ len % 2 = 1) ∧
    ((CrfState.Init log env abc self prior prof col weight_center weight_decay).isSome = true
      ↔ prof.length % 2 = 1) ∧
    (∀ s : CrfState α, CrfState.ofLength env len = some s →
      s.length = len ∧ (s.length - 1) / 2 = s.length - 1 - (s.length - 1) / 2) ∧
    (∀ s : CrfState α,
      CrfState.Init log env abc self prior prof col weight_center weight_decay = some s →
      s.length = prof.length ∧ (s.length - 1) / 2 = s.length - 1 - (s.length - 1) / 2) := by
  refine ⟨?_, ?_, ?_, ?_⟩
  · by_cases hodd : len % 2 = 1
    · simp [CrfState.ofLength_odd env len hodd, hodd]
    · simp [CrfState.ofLength_even env len (by omega), hodd]
  · by_cases hodd : prof.length % 2 = 1
    · simp [CrfState.Init_eq log env abc self prior prof col weight_center weight_decay hodd,
        hodd]
    · simp [CrfState.Init_even log env abc self prior prof col weight_center weight_decay
        (by omega), hodd]
  · intro s hs
    by_cases hodd : len % 2 = 1
    · rw [CrfState.ofLength_odd env len hodd] at hs
      have hl : s.length = len := by
        rw [← Option.some.inj hs]
        rfl
      rw [hl]
      exact ⟨rfl, by omega⟩
    · rw [CrfState.ofLength_even env len (by omega)] at hs
      exact absurd hs (by simp)
  · intro s hs
    obtain ⟨hodd, hl⟩ := CrfState.Init_length _ _ _ _ _ _ _ _ _ s hs
    rw [hl]
    exact ⟨rfl, by omega⟩

/-- Witness for C12: three columns are accepted, with one column on each side
of the centre; four columns are refused. -/
theorem C12_odd_window_only_witness :
    (CrfState.ofLength (plainCrfCollaborators ℚ) 3).isSome = true ∧
    ¬ (CrfState.ofLength (plainCrfCollaborators ℚ) 4).isSome = true ∧
    ¬ (CrfState.Init (fun x => x - 1) (plainCrfCollaborators ℚ) abc4 (emptyCrfState ℚ)
        (1 / 2) out4 stateA.pc (8 / 5) (17 / 20)).isSome = true :=
  ⟨(C12_odd_window_only (fun x => x - 1) (plainCrfCollaborators ℚ) abc4 (emptyCrfState ℚ)
      (1 / 2) out4 stateA.pc (8 / 5) (17 / 20) 3).1.mpr (by decide),
    fun h => absurd ((C12_odd_window_only (fun x => x - 1) (plainCrfCollaborators ℚ) abc4
      (emptyCrfState ℚ) (1 / 2) out4 stateA.pc (8 / 5) (17 / 20) 4).1.mp h) (by decide),
    fun h => absurd ((C12_odd_window_only (fun x => x - 1) (plainCrfCollaborators ℚ) abc4
      (emptyCrfState ℚ) (1 / 2) out4 stateA.pc (8 / 5) (17 / 20) 4).2.1.mp h) (by decide)⟩

theorem CrfState.ofContextProfile_some {α : Type} [LinearOrderedField α] (log : α → α)
    (env : CrfCollaborators α) (TransformToLin : ContextProfile α → ContextProfile α)
    (abc : Abc) (p : ContextProfile α) (weight_center weight_decay : α)
    (hT : ∀ q : ContextProfile α, (TransformToLin q).probs.length = q.probs.length)
    (hodd : p.probs.length % 2 = 1) :
    ∃ s : CrfState α,
      CrfState.ofContextProfile log env TransformToLin abc p weight_center weight_decay
        = some s ∧ s.length = p.probs.length := by
  have hlen : (if p.is_log then TransformToLin p else p).probs.length = p.probs.length := by
    split_ifs
    · exact hT p
    · rfl
  have hodd2 : (if p.is_log then TransformToLin p else p).probs.length % 2 = 1 := by
    rw [hlen]
    exact hodd
  refine ⟨_, CrfState.Init_eq log env abc _ _ _ _ weight_center weight_decay hodd2, ?_⟩
  exact hlen

/-- State of the constructor loop of `Crf` after `n` iterations. -/
theorem Crf.ofLibrary_loop {α : Type} [LinearOrderedField α] (log : α → α)
    (env : CrfCollaborators α) (TransformToLin : ContextProfile α → ContextProfile α)
    (abc : Abc) (lib : ContextLibrary α) (weight_center weight_decay : α) (s0 : CrfState α)
    (hT : ∀ q : ContextProfile α, (TransformToLin q).probs.length = q.probs.length)
    (hodd : lib.wlen % 2 = 1)
    (hcols : ∀ k, k < lib.size → (lib.get k).probs.length = lib.wlen)
    (n : Nat) (hn : n ≤ lib.size) :
    forLoop 0 n (fun i (r : Option (Crf α)) =>
      match r with
      | none => none
      | some crf =>
        match CrfState.ofContextProfile log env TransformToLin abc (lib.get i)
            weight_center weight_decay with
        | none => none
        | some s => some { crf with states_ := crf.states_.set i s })
      (some { wlen_ := lib.wlen, states_ := { size := lib.size, get := fun _ => s0 } })
    = some { wlen_ := lib.wlen,
             states_ := { size := lib.size,
                          get := fun k => if k < n then
                            (CrfState.ofContextProfile log env TransformToLin abc (lib.get k)
                              weight_center weight_decay).getD s0
                            else s0 } } := by
  induction n with
  | zero => simp [forLoop_empty]
  | succ n ih =>
    rw [forLoop_succ 0 n (by omega), ih (by omega)]
    obtain ⟨s, hs, _⟩ := CrfState.ofContextProfile_some log env TransformToLin abc (lib.get n)
      weight_center weight_decay hT (by rw [hcols n (by omega)]; exact hodd)
    simp only [hs, Vector.set]
    congr 3
    funext k
    by_cases h : k = n
    · subst h
      simp [hs]
    · have : k < n + 1 ↔ k < n := by omega
      simp [Function.update_noteq h, this]

/-- C13: for a context library whose window length is odd and whose profiles
all have `lib.wlen()` columns (`TransformToLin` keeping the number of
columns), the constructor `Crf(lib, ...)` ends normally; the CRF has
`size() = lib.size()` and `wlen() = lib.wlen()`, every state `k` has
`length() = wlen()`, and state `k` is the `CrfState` built from `lib[k]`. -/
theorem C13_Crf_from_library {α : Type} [LinearOrderedField α] (log : α → α)
    (env : CrfCollaborators α) (TransformToLin : ContextProfile α → ContextProfile α)
    (abc : Abc) (lib : ContextLibrary α) (weight_center weight_decay : α)
    (hT : ∀ q : ContextProfile α, (TransformToLin q).probs.length = q.probs.length)
    (hodd : lib.wlen % 2 = 1)
    (hcols : ∀ k, k < lib.size → (lib.get k).probs.length = lib.wlen) :
    ∃ crf : Crf α,
      Crf.ofLibrary log env TransformToLin abc lib weight_center weight_decay = some crf ∧
      crf.size = lib.size ∧ crf.wlen = lib.wlen ∧
      ∀ k, k < lib.size →
        (crf.get k).length = crf.wlen ∧
        CrfState.ofContextProfile log env TransformToLin abc (lib.get k)
          weight_center weight_decay = some (crf.get k) := by
  unfold Crf.ofLibrary
  rw [CrfState.ofLength_odd env lib.wlen hodd]
  simp only
  rw [Crf.ofLibrary_loop log env TransformToLin abc lib weight_center weight_decay _ hT hodd
    hcols lib.size (le_refl _)]
  refine ⟨_, rfl, rfl, rfl, ?_⟩
  intro k hk
  obtain ⟨s, hs, hl⟩ := CrfState.ofContextProfile_some log env TransformToLin abc (lib.get k)
    weight_center weight_decay hT (by rw [hcols k hk]; exact hodd)
  simp only [Crf.get, Crf.wlen, hk, if_true, hs, Option.getD_some]
  exact ⟨by rw [hl, hcols k hk], trivial⟩

/-- Witness for C13: the two-state library of the scenario. -/
theorem C13_Crf_from_library_witness :
    ∃ crf : Crf ℚ,
      Crf.ofLibrary (fun x => x - 1) (plainCrfCollaborators ℚ) (fun q => q) abc4 lib2
        (8 / 5) (17 / 20) = some crf ∧
      crf.size = lib2.size ∧ crf.wlen = lib2.wlen ∧
      ∀ k, k < lib2.size →
        (crf.get k).length = crf.wlen ∧
        CrfState.ofContextProfile (fun x => x - 1) (plainCrfCollaborators ℚ) (fun q => q) abc4
          (lib2.get k) (8 / 5) (17 / 20) = some (crf.get k) :=
  C13_Crf_from_library (fun x => x - 1) (plainCrfCollaborators ℚ) (fun q => q) abc4 lib2
    (8 / 5) (17 / 20) (fun _ => rfl) (by decide)
    (fun k _ => by
      by_cases h : k = 0
      · simp [lib2, h, stateA, uniformProfile3]
      · simp [lib2, h, stateB, uniformProfile3])

theorem wrapInt_of_range (x : Int) (hlo : INT_MIN ≤ x) (hhi : x ≤ INT_MAX) : wrapInt x = x := by
  unfold wrapInt
  unfold INT_MIN at hlo
  unfold INT_MAX at hhi
  omega

/-- C14 (counterexample): for the alphabet of size `K = INT_MAX` the code
returns `gap() = INT_MIN`, which is not `K + 1`, and the letter `INT_MIN`
satisfies both `less_any` and `gap`. -/
theorem C14_reserved_indices_counterexample :
    alphabetMax.gap = INT_MIN ∧ alphabetMax.gap ≠ alphabetMax.size + 1 ∧
    [alphabetMax.less_any INT_MIN, alphabetMax.any_p INT_MIN, alphabetMax.gap_p INT_MIN,
      alphabetMax.endgap_p INT_MIN].count true = 2 := by
  decide

/-- C14 (amended): for an alphabet whose size `K` is an `int` with
`K + 2 ≤ INT_MAX`, the reserved indices are `any() = K`, `gap() = K + 1` and
`endgap() = K + 2`; they are pairwise distinct and none lies in the
real-symbol range `0..K-1`; for every integer `letter` at most one of
`less_any`, `any`, `gap`, `endgap` holds, and exactly one when
`0 ≤ letter ≤ K + 2`. -/
theorem C14_reserved_indices (abc : Alphabet) (letter : Int)
    (hlo : INT_MIN ≤ abc.size_) (hhi : abc.size_ + 2 ≤ INT_MAX) :
    abc.any = abc.size ∧ abc.gap = abc.size + 1 ∧ abc.endgap = abc.size + 2 ∧
    abc.any ≠ abc.gap ∧ abc.any ≠ abc.endgap ∧ abc.gap ≠ abc.endgap ∧
    ¬ (0 ≤ abc.any ∧ abc.any ≤ abc.size - 1) ∧
    ¬ (0 ≤ abc.gap ∧ abc.gap ≤ abc.size - 1) ∧
    ¬ (0 ≤ abc.endgap ∧ abc.endgap ≤ abc.size - 1) ∧
    [abc.less_any letter, abc.any_p letter, abc.gap_p letter, abc.endgap_p letter].count true
      ≤ 1 ∧
    (0 ≤ letter ∧ letter ≤ abc.size + 2 →
      [abc.less_any letter, abc.any_p letter, abc.gap_p letter, abc.endgap_p letter].count
        true = 1) := by
  have w1 : wrapInt (abc.size_ + 1) = abc.size_ + 1 :=
    wrapInt_of_range _ (by omega) (by omega)
  have w2 : wrapInt (abc.size_ + 2) = abc.size_ + 2 :=
    wrapInt_of_range _ (by omega) hhi
  refine ⟨rfl, ?_, ?_, ?_, ?_, ?_, ?_, ?_, ?_, ?_, ?_⟩ <;>
    simp only [Alphabet.any, Alphabet.gap, Alphabet.endgap, Alphabet.size, Alphabet.any_p,
      Alphabet.less_any, Alphabet.gap_p, Alphabet.endgap_p, w1, w2]
  · omega
  · omega
  · omega
  · omega
  · omega
  · omega
  · by_cases h1 : letter < abc.size_
    · have h2 : ¬ letter = abc.size_ := by omega
      have h3 : ¬ letter = abc.size_ + 1 := by omega
      have h4 : ¬ letter = abc.size_ + 2 := by omega
      simp [h1, h2, h3, h4]
    · by_cases h2 : letter = abc.size_
      · have h3 : ¬ letter = abc.size_ + 1 := by omega
        have h4 : ¬ letter = abc.size_ + 2 := by omega
        simp [h1, h2, h3, h4]
      · by_cases h3 : letter = abc.size_ + 1
        · have h4 : ¬ letter = abc.size_ + 2 := by omega
          simp [h1, h2, h3, h4]
        · by_cases h4 : letter = abc.size_ + 2
          · simp [h1, h2, h3, h4]
          · simp [h1, h2, h3, h4]
  · intro hr
    by_cases h1 : letter < abc.size_
    · have h2 : ¬ letter = abc.size_ := by omega
      have h3 : ¬ letter = abc.size_ + 1 := by omega
      have h4 : ¬ letter = abc.size_ + 2 := by omega
      simp [h1, h2, h3, h4]
    · by_cases h2 : letter = abc.size_
      · have h3 : ¬ letter = abc.size_ + 1 := by omega
        have h4 : ¬ letter = abc.size_ + 2 := by omega
        simp [h1, h2, h3, h4]
      · by_cases h3 : letter = abc.size_ + 1
        · have h4 : ¬ letter = abc.size_ + 2 := by omega
          simp [h1, h2, h3, h4]
        · have h4 : letter = abc.size_ + 2 := by omega
          simp [h1, h2, h3, h4]

/-- Witness for the amended C14: the amino-acid alphabet, `K = 20`, and the
letter 21 (the gap). -/
theorem C14_reserved_indices_witness :
    aminoAcids.gap = aminoAcids.size + 1 ∧ aminoAcids.endgap = aminoAcids.size + 2 ∧
    [aminoAcids.less_any 21, aminoAcids.any_p 21, aminoAcids.gap_p 21,
      aminoAcids.endgap_p 21].count true = 1 :=
  ⟨(C14_reserved_indices aminoAcids 21 (by decide) (by decide)).2.1,
    (C14_reserved_indices aminoAcids 21 (by decide) (by decide)).2.2.1,
    (C14_reserved_indices aminoAcids 21 (by decide) (by decide)).2.2.2.2.2.2.2.2.2.2
      ⟨by decide, by decide⟩⟩

/-- C15: in a CRF whose `n` states all have `W = wlen()` columns, `nweights()`
is the sum over the states of one bias weight, `W * K` context weights and `K`
pseudocount weights, that is `n * (1 + (W + 1) * K)`. -/
theorem C15_nweights_counts_weights {α : Type} (crf : Crf α) (abc : Abc)
    (hlen : ∀ k, k < crf.size → (crf.get k).length = crf.wlen) :
    ∑ k in Finset.range crf.size, (1 + (crf.get k).length * abc.kSize + abc.kSize)
      = crf.nweights abc ∧
    crf.nweights abc = crf.size * (1 + (crf.wlen + 1) * abc.kSize) := by
  refine ⟨?_, rfl⟩
  have e : ∀ k ∈ Finset.range crf.size,
      1 + (crf.get k).length * abc.kSize + abc.kSize = 1 + (crf.wlen + 1) * abc.kSize := by
    intro k hk
    rw [hlen k (Finset.mem_range.mp hk)]
    ring
  rw [Finset.sum_congr rfl e, Finset.sum_const, Finset.card_range]
  rfl

/-- Witness for C15: three states of three columns over four symbols have
`3 * (1 + 4 * 4) = 51` weights. -/
theorem C15_nweights_counts_weights_witness :
    ∑ k in Finset.range crf3.size, (1 + (crf3.get k).length * abc4.kSize + abc4.kSize)
      = crf3.nweights abc4 ∧
    crf3.nweights abc4 = crf3.size * (1 + (crf3.wlen + 1) * abc4.kSize) :=
  C15_nweights_counts_weights crf3 abc4 (fun _ _ => rfl)

/-- The state-setting loop of `LibraryBasedCrfInit::operator()` ends normally
or at a failed assertion; it throws nothing. -/
theorem LibraryBasedCrfInit.loop_exit {α : Type} [LinearOrderedField α] (log : α → α)
    (env : CrfCollaborators α) (TransformToLin : ContextProfile α → ContextProfile α)
    (abc : Abc) (self : LibraryBasedCrfInit α) (shuffle : List Nat) (crf : Crf α) (n : Nat) :
    (forLoop 0 n (fun k (st : Exit × Crf α) =>
      match st.1 with
      | Exit.normal =>
        match CrfState.ofContextProfile log env TransformToLin abc
            (self.profiles_.get (shuffle.getD k 0)) self.weight_center_ self.weight_decay_ with
        | some s => (Exit.normal, st.2.SetState k s)
        | none => (Exit.assertion_failed, st.2)
      | _ => st) (Exit.normal, crf)).1 ≠ Exit.threw Exception.crf_too_few_profiles := by
  have key : ∀ m : Nat, ∀ e : Exception,
      (forLoop 0 m (fun k (st : Exit × Crf α) =>
        match st.1 with
        | Exit.normal =>
          match CrfState.ofContextProfile log env TransformToLin abc
              (self.profiles_.get (shuffle.getD k 0)) self.weight_center_
              self.weight_decay_ with
          | some s => (Exit.normal, st.2.SetState k s)
          | none => (Exit.assertion_failed, st.2)
        | _ => st) (Exit.normal, crf)).1 ≠ Exit.threw e := by
    intro m
    induction m with
    | zero =>
      intro e
      rw [forLoop_empty]
      simp
    | succ m ih =>
      intro e
      rw [forLoop_succ 0 m (by omega)]
      generalize forLoop 0 m _ (Exit.normal, crf) = st at ih ⊢
      obtain ⟨ex, c⟩ := st
      cases ex with
      | normal =>
        simp only
        cases CrfState.ofContextProfile log env TransformToLin abc
            (self.profiles_.get (shuffle.getD m 0)) self.weight_center_ self.weight_decay_ with
        | none => simp
        | some s => simp
      | assertion_failed => simp
      | threw e2 => exact absurd rfl (ih e2)
  exact key n _

/-- C16: `LibraryBasedCrfInit::operator()` throws "Too few profiles in context
library for CRF initialization!" exactly when the library holds fewer
profiles than `crf.size()`, and when it throws the CRF is returned as it
was. -/
theorem C16_too_few_profiles {α : Type} [LinearOrderedField α] (log : α → α)
    (env : CrfCollaborators α) (TransformToLin : ContextProfile α → ContextProfile α)
    (abc : Abc) (random_shuffle : Nat → List Nat → List Nat)
    (self : LibraryBasedCrfInit α) (crf : Crf α) :
    ((LibraryBasedCrfInit.call log env TransformToLin abc random_shuffle self crf).1
        = Exit.threw Exception.crf_too_few_profiles
      ↔ self.profiles_.size < crf.size) ∧
    ((LibraryBasedCrfInit.call log env TransformToLin abc random_shuffle self crf).1
        = Exit.threw Exception.crf_too_few_profiles →
      (LibraryBasedCrfInit.call log env TransformToLin abc random_shuffle self crf).2 = crf) := by
  by_cases h : self.profiles_.size < crf.size
  · have e : LibraryBasedCrfInit.call log env TransformToLin abc random_shuffle self crf
        = (Exit.threw Exception.crf_too_few_profiles, crf) := by
      unfold LibraryBasedCrfInit.call
      rw [if_pos h]
    rw [e]
    exact ⟨⟨fun _ => h, fun _ => rfl⟩, fun _ => rfl⟩
  · have hne : (LibraryBasedCrfInit.call log env TransformToLin abc random_shuffle self crf).1
        ≠ Exit.threw Exception.crf_too_few_profiles := by
      unfold LibraryBasedCrfInit.call
      rw [if_neg h]
      exact LibraryBasedCrfInit.loop_exit log env TransformToLin abc self _ crf crf.size
    exact ⟨⟨fun e => absurd e hne, fun hlt => absurd hlt h⟩, fun e => absurd e hne⟩

/-- Witness for C16: a library of two profiles and a CRF of three states. -/
theorem C16_too_few_profiles_witness :
    (LibraryBasedCrfInit.call (fun x => x - 1) (plainCrfCollaborators ℚ) (fun q => q) abc4
        (fun _ l => l.reverse)
        { profiles_ := profiles2, weight_center_ := 8 / 5, weight_decay_ := 17 / 20,
          seed_ := 0 } crf3).1 = Exit.threw Exception.crf_too_few_profiles ∧
    (LibraryBasedCrfInit.call (fun x => x - 1) (plainCrfCollaborators ℚ) (fun q => q) abc4
        (fun _ l => l.reverse)
        { profiles_ := profiles2, weight_center_ := 8 / 5, weight_decay_ := 17 / 20,
          seed_ := 0 } crf3).2 = crf3 :=
  ⟨(C16_too_few_profiles (fun x => x - 1) (plainCrfCollaborators ℚ) (fun q => q) abc4
      (fun _ l => l.reverse)
      { profiles_ := profiles2, weight_center_ := 8 / 5, weight_decay_ := 17 / 20,
        seed_ := 0 } crf3).1.mpr (by decide),
    (C16_too_few_profiles (fun x => x - 1) (plainCrfCollaborators ℚ) (fun q => q) abc4
      (fun _ l => l.reverse)
      { profiles_ := profiles2, weight_center_ := 8 / 5, weight_decay_ := 17 / 20,
        seed_ := 0 } crf3).2
      ((C16_too_few_profiles (fun x => x - 1) (plainCrfCollaborators ℚ) (fun q => q) abc4
        (fun _ l => l.reverse)
        { profiles_ := profiles2, weight_center_ := 8 / 5, weight_decay_ := 17 / 20,
          seed_ := 0 } crf3).1.mpr (by decide))⟩

/-! ## `Hmm::AddState` and `BlastHits::Filter` -/

/-- C17: `Hmm::AddState` throws exactly when the HMM is already full or the
profile's number of columns differs from `num_cols()`; when it throws, the
list of states (and the whole HMM) is as before the call; otherwise the new
state is appended. -/
theorem C17_AddState_throws_iff {α : Type} [Field α] (h : ByAlphabet.Hmm α)
    (profile : ByAlphabet.Profile α) :
    ((∃ e : Exception, (h.AddState profile).1 = Exit.threw e)
      ↔ (h.full = true ∨ profile.num_cols ≠ h.num_cols)) ∧
    ((∃ e : Exception, (h.AddState profile).1 = Exit.threw e) →
      (h.AddState profile).2.1 = h ∧ (h.AddState profile).2.1.states_ = h.states_) ∧
    (¬ (∃ e : Exception, (h.AddState profile).1 = Exit.threw e) →
      (h.AddState profile).1 = Exit.normal ∧
      (h.AddState profile).2.1.states_.length = h.states_.length + 1) := by
  unfold ByAlphabet.Hmm.AddState
  by_cases hf : h.full = true
  · simp [hf]
  · by_cases hc : profile.num_cols = h.num_cols
    · simp [hf, hc]
    · simp [hf, hc]

/-- Witness for C17: a full HMM of no state refuses a profile and keeps its
list of states. -/
theorem C17_AddState_throws_iff_witness :
    ((ByAlphabet.Hmm.new 0 3 : ByAlphabet.Hmm ℚ).AddState
        { num_cols := 3, data := fun _ _ => 0 }).2.1.states_
      = (ByAlphabet.Hmm.new 0 3 : ByAlphabet.Hmm ℚ).states_ :=
  ((C17_AddState_throws_iff (ByAlphabet.Hmm.new 0 3 : ByAlphabet.Hmm ℚ)
      { num_cols := 3, data := fun _ _ => 0 }).2.1
    ((C17_AddState_throws_iff (ByAlphabet.Hmm.new 0 3 : ByAlphabet.Hmm ℚ)
      { num_cols := 3, data := fun _ _ => 0 }).1.mpr (Or.inl rfl))).2

namespace ByAlphabet

theorem statesFrom_length {α : Type} [Field α] (n : Nat) (ps : List (Profile α)) :
    ∀ i : Nat, (statesFrom (α := α) n i ps).length = ps.length := by
  induction ps with
  | nil => intro i; rfl
  | cons p ps ih =>
    intro i
    simp [statesFrom, ih]

/-- The adding loop on profiles of the right number of columns: it appends
states built from the first profiles until the graph is full. -/
theorem LibraryBasedStateInitializer.addStates_eq {α : Type} [Field α]
    (ps : List (ContextProfile α)) :
    ∀ graph : Hmm α, (∀ p ∈ ps, p.num_cols = graph.num_cols_) →
      graph.states_.length ≤ graph.num_states_ →
      LibraryBasedStateInitializer.addStates ps graph
        = (Exit.normal,
            { graph with
              states_ := graph.states_ ++ statesFrom graph.num_states_ graph.states_.length
                ((ps.take (graph.num_states_ - graph.states_.length)).map
                  ContextProfile.toProfile) }) := by
  induction ps with
  | nil =>
    intro graph _ _
    simp [LibraryBasedStateInitializer.addStates, statesFrom]
  | cons p ps ih =>
    intro graph hcols hle
    unfold LibraryBasedStateInitializer.addStates
    by_cases hf : graph.full = true
    · have hlen : graph.states_.length = graph.num_states_ := by
        simpa [Hmm.full] using hf
      simp [hf, hlen, statesFrom]
    · have hlen : graph.states_.length ≠ graph.num_states_ := by
        simpa [Hmm.full] using hf
      have hp : p.num_cols = graph.num_cols_ := hcols p (List.mem_cons_self _ _)
      have hk : graph.num_states_ - graph.states_.length
          = (graph.num_states_ - (graph.states_.length + 1)) + 1 := by omega
      simp only [hf, Hmm.AddState, Hmm.num_cols, hp, ne_eq, not_true_eq_false, if_false,
        Bool.false_eq_true]
      rw [ih]
      · simp only [List.length_append, List.length_singleton, Hmm.num_states]
        rw [hk, List.take_succ_cons, List.map_cons, statesFrom, List.append_assoc]
        rfl
      · exact fun q hq => hcols q (List.mem_cons_of_mem _ hq)
      · simp only [List.length_append, List.length_singleton]
        omega

/-- The outcome of `LibraryBasedStateInitializer::Init` on an empty graph of `n`
states, in terms of the sorted list of profiles. -/
theorem LibraryBasedStateInitializer.Init_on_empty_graph {α : Type} [LinearOrderedField α]
    (sort : (ContextProfile α → ContextProfile α → Bool) → List (ContextProfile α) →
      List (ContextProfile α))
    (TransformToLinSpace : ContextProfileState α → ContextProfileState α)
    (lib : ProfileLibrary α) (n : Nat)
    (hcols : ∀ p ∈ lib.profiles, p.num_cols = lib.num_cols)
    (hperm : (sort PriorCompare lib.profiles).Perm lib.profiles) :
    LibraryBasedStateInitializer.Init sort TransformToLinSpace lib (Hmm.new n lib.num_cols)
      = (if lib.profiles.length < n then Exit.threw Exception.library_too_few_profiles
          else Exit.normal,
         { num_states_ := n, num_cols_ := lib.num_cols, states_logspace_ := false,
           states_ := (if lib.logspace then List.map TransformToLinSpace else id)
             (statesFrom n 0 (((sort PriorCompare lib.profiles).take n).map
               ContextProfile.toProfile)) }) := by
  have hlen : (sort PriorCompare lib.profiles).length = lib.profiles.length := hperm.length_eq
  have hc : ∀ p ∈ sort PriorCompare lib.profiles,
      p.num_cols = (Hmm.new n lib.num_cols : Hmm α).num_cols_ :=
    fun p hp => hcols p (hperm.subset hp)
  unfold LibraryBasedStateInitializer.Init
  rw [if_neg (by simp [Hmm.new, Hmm.num_cols])]
  dsimp only
  rw [LibraryBasedStateInitializer.addStates_eq _ _ hc (by simp [Hmm.new])]
  by_cases hlog : lib.logspace = true
  · by_cases hn : lib.profiles.length < n
    · have : ¬ (min n lib.profiles.length = n) := by omega
      simp [Hmm.new, Hmm.TransformStatesToLinSpace, Hmm.full, hlog, statesFrom_length, hlen,
        hn, this]
    · have : min n lib.profiles.length = n := by omega
      simp [Hmm.new, Hmm.TransformStatesToLinSpace, Hmm.full, hlog, statesFrom_length, hlen,
        hn, this]
  · by_cases hn : lib.profiles.length < n
    · have : ¬ (min n lib.profiles.length = n) := by omega
      simp [Hmm.new, Hmm.TransformStatesToLinSpace, Hmm.full, hlog, statesFrom_length, hlen,
        hn, this]
    · have : min n lib.profiles.length = n := by omega
      simp [Hmm.new, Hmm.TransformStatesToLinSpace, Hmm.full, hlog, statesFrom_length, hlen,
        hn, this]

end ByAlphabet

namespace ByAlphabet

theorem PriorCompare_eq_false {α : Type} [LinearOrder α] (a b : ContextProfile α) :
    PriorCompare a b = false ↔ a.prior ≤ b.prior := by
  simp [PriorCompare]

theorem sortByInsertion_perm {β : Type} (comp : β → β → Bool) (l : List β) :
    (sortByInsertion comp l).Perm l :=
  List.perm_insertionSort _ l

theorem sortByInsertion_sorted {α : Type} [LinearOrder α] (l : List (ContextProfile α)) :
    (sortByInsertion PriorCompare l).Pairwise (fun a b => PriorCompare b a = false) := by
  have htotal : IsTotal (ContextProfile α) (fun a b => PriorCompare b a = false) :=
    ⟨fun a b => by
      simp only [PriorCompare_eq_false]
      exact le_total _ _⟩
  have htrans : IsTrans (ContextProfile α) (fun a b => PriorCompare b a = false) :=
    ⟨fun a b c hab hbc => by
      simp only [PriorCompare_eq_false] at hab hbc ⊢
      exact le_trans hbc hab⟩
  exact List.sorted_insertionSort _ l

end ByAlphabet

/-- C19: for an initially empty graph of `n` states and a library whose
profiles all have the graph's number of columns, sorted by `std::sort` with
`PriorCompare`, `LibraryBasedStateInitializer::Init` throws "Context library
contains too few profiles!" exactly when the library has fewer than `n`
profiles; otherwise it ends normally with a full graph whose states are built,
in order, from the first `n` profiles of the sorted library, which are in
non-increasing order of prior, and every profile left out has a prior at most
that of every profile added. -/
theorem C19_library_based_init {α : Type} [LinearOrderedField α]
    (sort : (ByAlphabet.ContextProfile α → ByAlphabet.ContextProfile α → Bool) →
      List (ByAlphabet.ContextProfile α) → List (ByAlphabet.ContextProfile α))
    (TransformToLinSpace : ByAlphabet.ContextProfileState α → ByAlphabet.ContextProfileState α)
    (lib : ByAlphabet.ProfileLibrary α) (n : Nat)
    (hcols : ∀ p ∈ lib.profiles, p.num_cols = lib.num_cols)
    (hperm : (sort ByAlphabet.PriorCompare lib.profiles).Perm lib.profiles)
    (hsorted : (sort ByAlphabet.PriorCompare lib.profiles).Pairwise
      (fun a b => ByAlphabet.PriorCompare b a = false)) :
    ((ByAlphabet.LibraryBasedStateInitializer.Init sort TransformToLinSpace lib
          (ByAlphabet.Hmm.new n lib.num_cols)).1
        = Exit.threw Exception.library_too_few_profiles
      ↔ lib.profiles.length < n) ∧
    (n ≤ lib.profiles.length →
      (ByAlphabet.LibraryBasedStateInitializer.Init sort TransformToLinSpace lib
          (ByAlphabet.Hmm.new n lib.num_cols)).1 = Exit.normal ∧
      (ByAlphabet.LibraryBasedStateInitializer.Init sort TransformToLinSpace lib
          (ByAlphabet.Hmm.new n lib.num_cols)).2.full = true ∧
      (ByAlphabet.LibraryBasedStateInitializer.Init sort TransformToLinSpace lib
          (ByAlphabet.Hmm.new n lib.num_cols)).2.states_
        = (if lib.logspace then List.map TransformToLinSpace else id)
            (ByAlphabet.statesFrom n 0 (((sort ByAlphabet.PriorCompare lib.profiles).take n).map
              ByAlphabet.ContextProfile.toProfile)) ∧
      ((sort ByAlphabet.PriorCompare lib.profiles).take n).length = n ∧
      ((sort ByAlphabet.PriorCompare lib.profiles).take n).Pairwise
        (fun a b => b.prior ≤ a.prior) ∧
      ∀ q ∈ (sort ByAlphabet.PriorCompare lib.profiles).drop n,
        ∀ p ∈ (sort ByAlphabet.PriorCompare lib.profiles).take n, q.prior ≤ p.prior) := by
  have hlen : (sort ByAlphabet.PriorCompare lib.profiles).length = lib.profiles.length :=
    hperm.length_eq
  have hs : (sort ByAlphabet.PriorCompare lib.profiles).Pairwise
      (fun a b => b.prior ≤ a.prior) :=
    hsorted.imp (fun h => (ByAlphabet.PriorCompare_eq_false _ _).mp h)
  rw [ByAlphabet.LibraryBasedStateInitializer.Init_on_empty_graph sort TransformToLinSpace lib n hcols hperm]
  refine ⟨?_, ?_⟩
  · by_cases hn : lib.profiles.length < n
    · simp [hn]
    · simp [hn]
  · intro hn
    have hn2 : ¬ lib.profiles.length < n := by omega
    refine ⟨by simp [hn2], ?_, rfl, ?_, hs.sublist (List.take_sublist _ _), ?_⟩
    · by_cases hlog : lib.logspace = true
      · simp [ByAlphabet.Hmm.full, hlog, ByAlphabet.statesFrom_length, hlen, hn]
      · simp [ByAlphabet.Hmm.full, hlog, ByAlphabet.statesFrom_length, hlen, hn]
    · simp [hlen, hn]
    · intro q hq p hp
      have h := hs
      rw [← List.take_append_drop n (sort ByAlphabet.PriorCompare lib.profiles),
        List.pairwise_append] at h
      exact h.2.2 p hp q hq

/-- Witness for C19: the library of three profiles and a graph of two states. -/
theorem C19_library_based_init_witness :
    (ByAlphabet.LibraryBasedStateInitializer.Init ByAlphabet.sortByInsertion (fun s => s)
        ByAlphabet.library3 (ByAlphabet.Hmm.new 2 ByAlphabet.library3.num_cols)).1
      = Exit.normal ∧
    (ByAlphabet.LibraryBasedStateInitializer.Init ByAlphabet.sortByInsertion (fun s => s)
        ByAlphabet.library3 (ByAlphabet.Hmm.new 2 ByAlphabet.library3.num_cols)).2.full
      = true :=
  ⟨((C19_library_based_init ByAlphabet.sortByInsertion (fun s => s) ByAlphabet.library3 2
      (fun p hp => by
        simp only [ByAlphabet.library3, List.mem_cons, List.mem_singleton,
          List.not_mem_nil, or_false] at hp
        rcases hp with h | h | h <;> rw [h] <;> rfl)
      (ByAlphabet.sortByInsertion_perm _ _) (ByAlphabet.sortByInsertion_sorted _)).2
        (by decide)).1,
    ((C19_library_based_init ByAlphabet.sortByInsertion (fun s => s) ByAlphabet.library3 2
      (fun p hp => by
        simp only [ByAlphabet.library3, List.mem_cons, List.mem_singleton,
          List.not_mem_nil, or_false] at hp
        rcases hp with h | h | h <;> rw [h] <;> rfl)
      (ByAlphabet.sortByInsertion_perm _ _) (ByAlphabet.sortByInsertion_sorted _)).2
        (by decide)).2.1⟩

/-! ## `SamplingStateInitializer::Init` -/

namespace ByAlphabet

end ByAlphabet

namespace ByAlphabet

theorem iround_bounds {α : Type} [LinearOrderedField α] [FloorRing α] (x : α) (m : Nat)
    (h0 : 0 ≤ x) (hm : x ≤ (m : α)) : 0 ≤ iround x ∧ iround x ≤ (m : Int) := by
  unfold iround
  refine ⟨Int.floor_nonneg.mpr (by positivity), ?_⟩
  have h : ⌊x + 1 / 2⌋ < (m : Int) + 1 := by
    rw [Int.floor_lt]
    push_cast
    linarith
  omega

/-- In exact arithmetic a rate between 0 and 1 gives a sample size between 0
and the number of indices. -/
theorem exactSampleSize_bounds {α : Type} [LinearOrderedField α] [FloorRing α] (rate : α)
    (h0 : 0 ≤ rate) (h1 : rate ≤ 1) (m : Nat) :
    0 ≤ exactSampleSize rate m ∧ exactSampleSize rate m ≤ (m : Int) := by
  unfold exactSampleSize
  apply iround_bounds
  · exact mul_nonneg h0 (Nat.cast_nonneg _)
  · calc rate * (m : α) ≤ 1 * (m : α) := mul_le_mul_of_nonneg_right h1 (Nat.cast_nonneg _)
      _ = (m : α) := one_mul _

end ByAlphabet

theorem BlastHits.eraseHits_eq_takeWhile {α : Type} [LinearOrder α] (t : Double α)
    (hits : List (BlastHit α)) :
    BlastHits.eraseHits t hits = hits.takeWhile (fun hit => !Double.gt hit.evalue t) := by
  induction hits with
  | nil => rfl
  | cons h rest ih =>
    unfold BlastHits.eraseHits
    by_cases hgt : Double.gt h.evalue t = true
    · simp [hgt, List.takeWhile_cons]
    · simp [hgt, List.takeWhile_cons, ih]

theorem BlastHits.eraseHsps_eq_takeWhile {α : Type} [LinearOrder α] (t : Double α)
    (hsps : List (BlastHsp α)) :
    BlastHits.eraseHsps t hsps = hsps.takeWhile (fun hsp => !Double.gt hsp.evalue t) := by
  induction hsps with
  | nil => rfl
  | cons h rest ih =>
    unfold BlastHits.eraseHsps
    by_cases hgt : Double.gt h.evalue t = true
    · simp [hgt, List.takeWhile_cons]
    · simp [hgt, List.takeWhile_cons, ih]

/-- Among the prefixes of a list whose elements all satisfy `p`, the one kept
by `takeWhile` is the longest: it is such a prefix and every such prefix is a
prefix of it. -/
theorem takeWhile_is_longest_run {β : Type} (p : β → Bool) (l : List β) :
    l.takeWhile p <+: l ∧ (∀ x ∈ l.takeWhile p, p x = true) ∧
    ∀ pre : List β, pre <+: l → (∀ x ∈ pre, p x = true) → pre <+: l.takeWhile p := by
  refine ⟨List.takeWhile_prefix p, fun x hx => List.mem_takeWhile_imp hx, ?_⟩
  intro pre hpre hall
  obtain ⟨s, rfl⟩ := hpre
  rw [List.takeWhile_append_of_pos hall]
  exact List.prefix_append _ _

theorem takeWhile_congr_on {β : Type} (p q : β → Bool) (l : List β)
    (h : ∀ x ∈ l, p x = q x) : l.takeWhile p = l.takeWhile q := by
  induction l with
  | nil => rfl
  | cons a l ih =>
    rw [List.takeWhile_cons, List.takeWhile_cons, h a (List.mem_cons_self _ _),
      ih (fun x hx => h x (List.mem_cons_of_mem _ hx))]

theorem Double.not_gt_eq_le {α : Type} [LinearOrder α] (a b : Double α)
    (ha : a ≠ Double.nan) (hb : b ≠ Double.nan) : (!Double.gt a b) = Double.le a b := by
  cases a with
  | nan => exact absurd rfl ha
  | num x =>
    cases b with
    | nan => exact absurd rfl hb
    | num y =>
      by_cases h : x ≤ y
      · simp [Double.gt, Double.le, h]
      · simp [Double.gt, Double.le, h, not_le.mp h]

/-- C21 (counterexample): on the hit list with E-values NaN and `1/2`,
`Filter(1)` keeps both hits, while the longest prefix of the list in which
every hit has `evalue ≤ 1` is empty. -/
theorem C21_Filter_keeps_NaN_counterexample :
    (blastHitsNaN.Filter (Double.num 1)).hits_.length = 2 ∧
    blastHitsNaN.hits_.takeWhile (fun hit => Double.le hit.evalue (Double.num 1)) = [] := by
  refine ⟨?_, ?_⟩
  · norm_num [BlastHits.Filter, blastHitsNaN, BlastHits.eraseHits, BlastHits.eraseHsps,
      nanHit, Double.gt, hspOf]
  · simp [blastHitsNaN, nanHit, Double.le, List.takeWhile_cons]

/-- C21 (amended): the hits remaining after `BlastHits::Filter(t)` are the
longest prefix of the original list in which no hit has `evalue > t` (a NaN
E-value is not greater than `t` and does not end the prefix), each with its
HSP list cut to the longest prefix in which no HSP has `evalue > t`; the other
fields of the kept hits, the kept HSPs and the query length are as before.
When no E-value is NaN and `t` is not NaN, these are the longest prefixes with
every `evalue ≤ t`. -/
theorem C21_Filter_keeps_longest_run {α : Type} [LinearOrder α] (self : BlastHits α)
    (t : Double α) :
    (self.Filter t).hits_
      = (self.hits_.takeWhile (fun hit => !Double.gt hit.evalue t)).map (fun hit =>
          BlastHit.mk hit.oid hit.definition hit.bit_score hit.evalue
            (hit.hsps.takeWhile (fun hsp => !Double.gt hsp.evalue t))) ∧
    (self.Filter t).query_length_ = self.query_length_ ∧
    (self.hits_.takeWhile (fun hit => !Double.gt hit.evalue t) <+: self.hits_ ∧
      (∀ hit ∈ self.hits_.takeWhile (fun hit => !Double.gt hit.evalue t),
        Double.gt hit.evalue t = false) ∧
      ∀ pre : List (BlastHit α), pre <+: self.hits_ →
        (∀ hit ∈ pre, Double.gt hit.evalue t = false) →
        pre <+: self.hits_.takeWhile (fun hit => !Double.gt hit.evalue t)) ∧
    (∀ hit ∈ self.hits_,
      hit.hsps.takeWhile (fun hsp => !Double.gt hsp.evalue t) <+: hit.hsps ∧
      (∀ hsp ∈ hit.hsps.takeWhile (fun hsp => !Double.gt hsp.evalue t),
        Double.gt hsp.evalue t = false) ∧
      ∀ pre : List (BlastHsp α), pre <+: hit.hsps →
        (∀ hsp ∈ pre, Double.gt hsp.evalue t = false) →
        pre <+: hit.hsps.takeWhile (fun hsp => !Double.gt hsp.evalue t)) ∧
    ((∀ hit ∈ self.hits_, hit.evalue ≠ Double.nan ∧
        ∀ hsp ∈ hit.hsps, hsp.evalue ≠ Double.nan) → t ≠ Double.nan →
      (self.Filter t).hits_
        = (self.hits_.takeWhile (fun hit => Double.le hit.evalue t)).map (fun hit =>
            BlastHit.mk hit.oid hit.definition hit.bit_score hit.evalue
              (hit.hsps.takeWhile (fun hsp => Double.le hsp.evalue t)))) := by
  have hmain : (self.Filter t).hits_
      = (self.hits_.takeWhile (fun hit => !Double.gt hit.evalue t)).map (fun hit =>
          BlastHit.mk hit.oid hit.definition hit.bit_score hit.evalue
            (hit.hsps.takeWhile (fun hsp => !Double.gt hsp.evalue t))) := by
    simp only [BlastHits.Filter, BlastHits.eraseHits_eq_takeWhile,
      BlastHits.eraseHsps_eq_takeWhile]
  refine ⟨hmain, rfl, ?_, ?_, ?_⟩
  · obtain ⟨h1, h2, h3⟩ :=
      takeWhile_is_longest_run (fun hit : BlastHit α => !Double.gt hit.evalue t) self.hits_
    exact ⟨h1, fun hit hh => by simpa using h2 hit hh,
      fun pre hp hall => h3 pre hp (fun x hx => by simp [hall x hx])⟩
  · intro hit _
    obtain ⟨h1, h2, h3⟩ :=
      takeWhile_is_longest_run (fun hsp : BlastHsp α => !Double.gt hsp.evalue t) hit.hsps
    exact ⟨h1, fun hsp hh => by simpa using h2 hsp hh,
      fun pre hp hall => h3 pre hp (fun x hx => by simp [hall x hx])⟩
  · intro hnan ht
    rw [hmain, takeWhile_congr_on (fun hit : BlastHit α => !Double.gt hit.evalue t)
      (fun hit => Double.le hit.evalue t) self.hits_
      (fun hit hh => Double.not_gt_eq_le _ _ (hnan hit hh).1 ht)]
    apply List.map_congr_left
    intro hit hh
    have hmem : hit ∈ self.hits_ := (List.takeWhile_prefix _).subset hh
    rw [takeWhile_congr_on (fun hsp : BlastHsp α => !Double.gt hsp.evalue t)
      (fun hsp => Double.le hsp.evalue t) hit.hsps
      (fun hsp hs => Double.not_gt_eq_le _ _ ((hnan hit hmem).2 hsp hs) ht)]

/-- Witness for the amended C21: at threshold 1 the list of three hits keeps
its first hit only, with the first of its three HSPs; the third hit, of
E-value `1/100`, follows a hit of E-value 5 and is removed. -/
theorem C21_Filter_keeps_longest_run_witness :
    (blastHits3.Filter (Double.num 1)).hits_ = [keptHit] :=
  (C21_Filter_keeps_longest_run blastHits3 (Double.num 1)).1.trans
    (by norm_num [blastHits3, List.takeWhile_cons, hspOf, Double.gt, keptHit])

end cs
